import Mathlib

/-!
Verification of the task-monitoring engine in src/main.py.

The Python program keeps three pieces of shared mutable state:

  user_data : dict user_id -> { "tasks" : dict task_name -> task dict }
  jobs      : dict user_id -> dict task_name -> job handle
  tasks.db  : sqlite table keyed by (user_id, task_name)

plus, per user, the python-telegram-bot conversation state together with
the two conversation-context keys task_name and task_to_update.

We embed dicts as association lists with unique keys (insertion order is
preserved, assignment replaces in place, deletion removes the key), the
sqlite table as an association list keyed by the pair, and the scheduler
job queue as the list of keys having a scheduled repeating job.  Each
handler of main.py becomes a pure function from the system state (plus
the oracle describing the outcome of the HTTP fetch-and-select and of
the notification send) to the new system state and the list of messages
sent to the acting user.  A Python exception inside a handler makes the
handler stop at that point: mutations already performed persist and the
conversation state is left unchanged, which the embedding reproduces
branch by branch.
-/

set_option autoImplicit false

namespace Monitory

universe u v

/-- Lookup in an association list, first matching key. -/
def getA {α : Type u} {β : Type v} [DecidableEq α] (k : α) : List (α × β) → Option β
  | [] => none
  | (a, b) :: l => if a = k then some b else getA k l

/-- Dict assignment: replace the value at the key in place, or append the
binding at the end when the key is absent. -/
def setA {α : Type u} {β : Type v} [DecidableEq α] (k : α) (v : β) : List (α × β) → List (α × β)
  | [] => [(k, v)]
  | (a, b) :: l => if a = k then (k, v) :: l else (a, b) :: setA k v l

/-- Dict deletion: remove every binding of the key (association lists built
by setA have unique keys, so this agrees with Python del). -/
def delA {α : Type u} {β : Type v} [DecidableEq α] (k : α) : List (α × β) → List (α × β)
  | [] => []
  | (a, b) :: l => if a = k then delA k l else (a, b) :: delA k l

/-- Membership in a plain list of keys. -/
def memL {α : Type u} [DecidableEq α] (x : α) : List α → Bool
  | [] => false
  | a :: l => if a = x then true else memL x l

/-- Remove every occurrence of a key from a plain list. -/
def remL {α : Type u} [DecidableEq α] (x : α) : List α → List α
  | [] => []
  | a :: l => if a = x then remL x l else a :: remL x l

section AListLemmas

variable {α : Type u} {β : Type v} [DecidableEq α]

@[simp] theorem getA_nil (k : α) : getA (β := β) k [] = none := rfl

@[simp] theorem getA_setA_same (k : α) (v : β) (l : List (α × β)) :
    getA k (setA k v l) = some v := by
  induction l with
  | nil => simp [getA, setA]
  | cons p l ih =>
    obtain ⟨a, b⟩ := p
    by_cases h : a = k <;> simp [getA, setA, h, ih]

@[simp] theorem getA_setA_ne (k k2 : α) (v : β) (l : List (α × β)) (h : k2 ≠ k) :
    getA k (setA k2 v l) = getA k l := by
  induction l with
  | nil => simp [getA, setA, h]
  | cons p l ih =>
    obtain ⟨a, b⟩ := p
    by_cases ha : a = k2
    · subst ha
      simp [getA, setA, h]
    · by_cases hk : a = k <;> simp [getA, setA, ha, hk, ih, Ne.symm h]

@[simp] theorem getA_delA_same (k : α) (l : List (α × β)) :
    getA k (delA k l) = none := by
  induction l with
  | nil => simp [delA]
  | cons p l ih =>
    obtain ⟨a, b⟩ := p
    by_cases h : a = k <;> simp [getA, delA, h, ih]

@[simp] theorem getA_delA_ne (k k2 : α) (l : List (α × β)) (h : k2 ≠ k) :
    getA k (delA k2 l) = getA k l := by
  induction l with
  | nil => simp [delA]
  | cons p l ih =>
    obtain ⟨a, b⟩ := p
    by_cases ha : a = k2
    · subst ha
      simp [getA, delA, h, ih]
    · by_cases hk : a = k <;> simp [getA, delA, ha, hk, ih, Ne.symm h]

@[simp] theorem memL_nil (x : α) : memL x ([] : List α) = false := rfl

@[simp] theorem memL_cons (x a : α) (l : List α) :
    memL x (a :: l) = (if a = x then true else memL x l) := rfl

@[simp] theorem memL_remL_same (x : α) (l : List α) : memL x (remL x l) = false := by
  induction l with
  | nil => simp [remL]
  | cons a l ih =>
    by_cases h : a = x <;> simp [remL, h, ih]

@[simp] theorem memL_remL_ne (x y : α) (l : List α) (h : y ≠ x) :
    memL x (remL y l) = memL x l := by
  induction l with
  | nil => simp [remL]
  | cons a l ih =>
    by_cases ha : a = y
    · subst ha
      simp [remL, h, Ne.symm h, ih]
    · by_cases hx : a = x <;> simp [remL, ha, hx, ih, Ne.symm h]

end AListLemmas

/-- In-memory task dict.  Python builds it up key by key, so every field is
optional; a field is some v exactly when the corresponding dict key has been
assigned (the code never assigns None to these keys). -/
structure Task where
  url : Option String
  selector : Option String
  initial_state : Option String
deriving DecidableEq, Repr

/-- The freshly created task dict (an empty Python dict). -/
def Task.emptyTask : Task := ⟨none, none, none⟩

/-- A row of the sqlite tasks table.  Every insert or update performed by the
code writes non-null strings into all three payload columns. -/
structure Row where
  url : String
  selector : String
  initial_state : String
deriving DecidableEq, Repr

/-- Per-user conversation position, combining the ConversationHandler state
with the conversation-context keys task_name and task_to_update, which the
code keeps in lock step with the state. -/
inductive Conv where
  | idle
  | addAwaitName
  | addAwaitUrl (task_name : String)
  | addAwaitSelector (task_name : String)
  | delAwaitName
  | updAwaitName
  | updAwaitUrl (task_to_update : String)
  | updAwaitSelector (task_to_update : String)
deriving DecidableEq, Repr

/-- Outcome of one fetch-and-extract pass (requests.get, BeautifulSoup,
select_one).  ok snapshot means the fetch succeeded and the first selector
match serialized, via str(element), to the given string; notFound means the
fetch succeeded and select_one returned None; fetchErr means requests.get or
the decoding raised. -/
inductive FetchOutcome where
  | ok (snapshot : String)
  | notFound
  | fetchErr
deriving DecidableEq, Repr

/-- Messages the handlers send, abstracted from their literal wording. -/
inductive Msg where
  | askName
  | askUrl
  | askSelector
  | duplicateName
  | setupWrong
  | setupNotFound
  | setupFetchError
  | monitoringStarted (task_name : String)
  | tryAgainAdd
  | noTasks
  | whichDelete (names : List String)
  | whichUpdate (names : List String)
  | taskDeleted (task_name : String)
  | taskNotFound (task_name : String)
  | updNotFound (task_name : String)
  | currentUrl (old_url : String)
  | currentSelector (old_selector : String)
  | taskUpdated (task_name : String) (inner : Msg)
  | cancelled
  | changed (task_name : String) (url : Option String)
deriving DecidableEq, Repr

/-- The whole mutable state of the program: the two in-memory registries, the
set of scheduled repeating jobs, the sqlite table, and the per-user
conversation position. -/
structure SysState where
  user_data : List (Nat × List (String × Task))
  jobs : List (Nat × List (String × Unit))
  sched : List (Nat × String)
  db : List ((Nat × String) × Row)
  conv : List (Nat × Conv)
deriving DecidableEq, Repr

/-- The state right after process start with an empty database. -/
def initState : SysState := ⟨[], [], [], [], []⟩

def memTasks (s : SysState) (u : Nat) : Option (List (String × Task)) :=
  getA u s.user_data

def memTask (s : SysState) (u : Nat) (n : String) : Option Task :=
  (memTasks s u).bind (getA n)

def memHasTask (s : SysState) (u : Nat) (n : String) : Bool :=
  (memTask s u n).isSome

def regHas (s : SysState) (u : Nat) (n : String) : Bool :=
  match getA u s.jobs with
  | some jb => (getA n jb).isSome
  | none => false

def schedHas (s : SysState) (u : Nat) (n : String) : Bool :=
  memL (u, n) s.sched

def dbRow (s : SysState) (u : Nat) (n : String) : Option Row :=
  getA (u, n) s.db

def dbHas (s : SysState) (u : Nat) (n : String) : Bool :=
  (dbRow s u n).isSome

def convOf (s : SysState) (u : Nat) : Conv :=
  (getA u s.conv).getD Conv.idle

/-! Embeddings of the sqlite helpers of main.py.  INSERT fails (raises
sqlite3.IntegrityError) exactly when the primary key already exists; the
UPDATE and DELETE statements are no-ops when the key is absent. -/

/-- db_update_task: UPDATE tasks SET url, selector, initial_state WHERE key. -/
def db_update_task (db : List ((Nat × String) × Row)) (u : Nat) (n : String)
    (url selector initial_state : String) : List ((Nat × String) × Row) :=
  match getA (u, n) db with
  | some _ => setA (u, n) ⟨url, selector, initial_state⟩ db
  | none => db

/-- db_update_task_state: UPDATE tasks SET initial_state WHERE key. -/
def db_update_task_state (db : List ((Nat × String) × Row)) (u : Nat) (n : String)
    (new_state : String) : List ((Nat × String) × Row) :=
  match getA (u, n) db with
  | some r => setA (u, n) { r with initial_state := new_state } db
  | none => db

/-- db_delete_task: DELETE FROM tasks WHERE key. -/
def db_delete_task (db : List ((Nat × String) × Row)) (u : Nat) (n : String) :
    List ((Nat × String) × Row) :=
  delA (u, n) db

/-- setup_monitoring_task, lines 239-286.  Returns none when the very first
line, the user_data lookup, raises KeyError (the call sites guarantee the
entry exists); otherwise returns the new state, the success flag and the
message, exactly as the Python function returns (bool, str).

The fetch-parse-select pass is the oracle argument.  Inside the try block
the code, on a match, first writes initial_state into the task dict, then
arms the repeating job with job_queue.run_repeating (line 260), and only
then records it via jobs[user_id][task_name] = job (line 266); if the jobs
dict has no entry for the user that last assignment raises KeyError, which
the enclosing except clause catches and reports with the fetch-error
message.  The already-written initial_state and, crucially, the already
armed job both survive: the function reports failure while a live job it
can no longer track keeps running. -/
def setup_monitoring_task (s : SysState) (u : Nat) (n : String) (fo : FetchOutcome) :
    Option (SysState × Bool × Msg) :=
  match memTask s u n with
  | none => none
  | some t =>
    some <|
      match t.url, t.selector with
      | some url, some sel =>
        if url = "" ∨ sel = "" then (s, false, Msg.setupWrong)
        else
          match fo with
          | FetchOutcome.fetchErr => (s, false, Msg.setupFetchError)
          | FetchOutcome.notFound => (s, false, Msg.setupNotFound)
          | FetchOutcome.ok snap =>
            let t2 := { t with initial_state := some snap }
            let ud := (getA u s.user_data).getD []
            let s1 := { s with user_data := setA u (setA n t2 ud) s.user_data }
            match getA u s1.jobs with
            | some jb =>
              ({ s1 with jobs := setA u (setA n () jb) s1.jobs,
                         sched := (u, n) :: s1.sched },
               true, Msg.monitoringStarted n)
            | none =>
              ({ s1 with sched := (u, n) :: s1.sched }, false, Msg.setupFetchError)
      | _, _ => (s, false, Msg.setupWrong)

/-- add_task, lines 164-167: the /add entry point.  Only fires when the user
is in no conversation. -/
def add_task (s : SysState) (u : Nat) : SysState × List Msg :=
  match convOf s u with
  | Conv.idle => ({ s with conv := setA u Conv.addAwaitName s.conv }, [Msg.askName])
  | _ => (s, [])

/-- receive_task_name, lines 170-192.  Ensures the user_data and jobs
entries for the user exist, rejects a duplicate name staying in the same
state, otherwise records the pending name and inserts the empty task dict. -/
def receive_task_name (s : SysState) (u : Nat) (text : String) : SysState × List Msg :=
  match convOf s u with
  | Conv.addAwaitName =>
    let ud0 := (getA u s.user_data).getD []
    let jb0 := (getA u s.jobs).getD []
    let s1 := { s with user_data := setA u ud0 s.user_data, jobs := setA u jb0 s.jobs }
    if (getA text ud0).isSome then
      (s1, [Msg.duplicateName])
    else
      ({ s1 with user_data := setA u (setA text Task.emptyTask ud0) s1.user_data,
                 conv := setA u (Conv.addAwaitUrl text) s1.conv },
       [Msg.askUrl])
  | _ => (s, [])

/-- receive_url, lines 195-206.  Writes the url into the task dict; raises
KeyError when the entry has vanished (state then unchanged, conversation
stuck in the same state). -/
def receive_url (s : SysState) (u : Nat) (text : String) : SysState × List Msg :=
  match convOf s u with
  | Conv.addAwaitUrl n =>
    match getA u s.user_data with
    | some ud =>
      match getA n ud with
      | some t =>
        ({ s with user_data := setA u (setA n { t with url := some text } ud) s.user_data,
                  conv := setA u (Conv.addAwaitSelector n) s.conv },
         [Msg.askSelector])
      | none => (s, [])
    | none => (s, [])
  | _ => (s, [])

/-- receive_selector, lines 209-236.  Writes the selector, runs
setup_monitoring_task (which on success arms the job), replies with its
message, and only then persists through db_add_task; a failing INSERT
(duplicate key, or an environmental sqlite error modelled by dbOk = false)
raises after the job is already armed, leaving the conversation stuck in
the selector state.  On setup failure the partially built task is removed
(and the empty per-user dict dropped) before the retry message. -/
def receive_selector (s : SysState) (u : Nat) (text : String) (fo : FetchOutcome)
    (dbOk : Bool) : SysState × List Msg :=
  match convOf s u with
  | Conv.addAwaitSelector n =>
    match getA u s.user_data with
    | some ud =>
      match getA n ud with
      | some t =>
        let s1 := { s with
          user_data := setA u (setA n { t with selector := some text } ud) s.user_data }
        match setup_monitoring_task s1 u n fo with
        | none => (s1, [])
        | some (s2, success, msg) =>
          if success then
            match memTask s2 u n with
            | some t3 =>
              match t3.url, t3.selector, t3.initial_state with
              | some url2, some sel2, some st2 =>
                if dbOk ∧ ¬ dbHas s2 u n then
                  ({ s2 with db := setA (u, n) ⟨url2, sel2, st2⟩ s2.db,
                             conv := setA u Conv.idle s2.conv },
                   [msg])
                else
                  (s2, [msg])
              | _, _, _ => (s2, [msg])
            | none => (s2, [msg])
          else
            let ud2 := (getA u s2.user_data).getD []
            let ud3 := delA n ud2
            ({ s2 with
                user_data :=
                  if ud3.isEmpty then delA u s2.user_data else setA u ud3 s2.user_data,
                conv := setA u Conv.idle s2.conv },
             [msg, Msg.tryAgainAdd])
      | none => (s, [])
    | none => (s, [])
  | _ => (s, [])

/-- The Python str.lower call used for the skip sentinel, embedded as an
ASCII-wise character map over the character list (kernel-computable, and
agreeing with str.lower on the ASCII inputs involved). -/
def lowerStr (s : String) : String := String.mk (s.data.map Char.toLower)

/-- delete_task, lines 310-325: the /delete entry point. -/
def delete_task (s : SysState) (u : Nat) : SysState × List Msg :=
  match convOf s u with
  | Conv.idle =>
    match getA u s.user_data with
    | none => (s, [Msg.noTasks])
    | some ud =>
      if ud.isEmpty then (s, [Msg.noTasks])
      else ({ s with conv := setA u Conv.delAwaitName s.conv },
            [Msg.whichDelete (ud.map Prod.fst)])
  | _ => (s, [])

/-- receive_task_to_delete, lines 328-350.  First block: if the jobs
registry has the key, unschedule the job, delete the registry entry and
drop the per-user registry dict when it became empty.  Second block: if the
task dict has the key, delete it (dropping the per-user dict when empty),
delete the row, and confirm; otherwise report not found. -/
def receive_task_to_delete (s : SysState) (u : Nat) (text : String) : SysState × List Msg :=
  match convOf s u with
  | Conv.delAwaitName =>
    let n := text
    let s1 :=
      match getA u s.jobs with
      | some jb =>
        match getA n jb with
        | some _ =>
          let jb2 := delA n jb
          { s with sched := remL (u, n) s.sched,
                   jobs := if jb2.isEmpty then delA u s.jobs else setA u jb2 s.jobs }
        | none => s
      | none => s
    match getA u s1.user_data with
    | some ud =>
      match getA n ud with
      | some _ =>
        let ud2 := delA n ud
        ({ s1 with
            user_data :=
              if ud2.isEmpty then delA u s1.user_data else setA u ud2 s1.user_data,
            db := db_delete_task s1.db u n,
            conv := setA u Conv.idle s1.conv },
         [Msg.taskDeleted n])
      | none => ({ s1 with conv := setA u Conv.idle s1.conv }, [Msg.taskNotFound n])
    | none => ({ s1 with conv := setA u Conv.idle s1.conv }, [Msg.taskNotFound n])
  | _ => (s, [])

/-- update_task, lines 353-368: the /update entry point. -/
def update_task (s : SysState) (u : Nat) : SysState × List Msg :=
  match convOf s u with
  | Conv.idle =>
    match getA u s.user_data with
    | none => (s, [Msg.noTasks])
    | some ud =>
      if ud.isEmpty then (s, [Msg.noTasks])
      else ({ s with conv := setA u Conv.updAwaitName s.conv },
            [Msg.whichUpdate (ud.map Prod.fst)])
  | _ => (s, [])

/-- select_task_to_update, lines 371-389.  An unknown name is reported and
the state re-entered; on a known name the code records task_to_update and
then reads the url key of the task dict: when that key is missing the read
raises KeyError and the conversation stays in the same state. -/
def select_task_to_update (s : SysState) (u : Nat) (text : String) : SysState × List Msg :=
  match convOf s u with
  | Conv.updAwaitName =>
    match getA u s.user_data with
    | some ud =>
      match getA text ud with
      | some t =>
        match t.url with
        | some old_url =>
          ({ s with conv := setA u (Conv.updAwaitUrl text) s.conv },
           [Msg.currentUrl old_url])
        | none => (s, [])
      | none => (s, [Msg.updNotFound text])
    | none => (s, [Msg.updNotFound text])
  | _ => (s, [])

/-- receive_new_url, lines 392-407.  Unless the text lowercases to skip, the
url field is overwritten at once; only afterwards is the selector key read
for the prompt, and when that key is missing the handler raises with the url
write already performed and the conversation stuck in the same state. -/
def receive_new_url (s : SysState) (u : Nat) (text : String) : SysState × List Msg :=
  match convOf s u with
  | Conv.updAwaitUrl n =>
    match getA u s.user_data with
    | some ud =>
      match getA n ud with
      | some t =>
        let t2 := if lowerStr text = "skip" then t else { t with url := some text }
        let s1 :=
          if lowerStr text = "skip" then s
          else { s with user_data := setA u (setA n t2 ud) s.user_data }
        match t2.selector with
        | some old_selector =>
          ({ s1 with conv := setA u (Conv.updAwaitSelector n) s1.conv },
           [Msg.currentSelector old_selector])
        | none => (s1, [])
      | none => (s, [])
    | none => (s, [])
  | _ => (s, [])

/-- Lines 422-424 of receive_new_selector_and_update: stop the old job.  No
per-user registry cleanup happens here, unlike in the delete handler. -/
def disarm (s : SysState) (u : Nat) (n : String) : SysState :=
  match getA u s.jobs with
  | some jb =>
    match getA n jb with
    | some _ =>
      { s with sched := remL (u, n) s.sched, jobs := setA u (delA n jb) s.jobs }
    | none => s
  | none => s

/-- Lines 421-441 of receive_new_selector_and_update, after the selector
write: stop the old job, re-validate (and on success arm) via
setup_monitoring_task, reply, persist through db_update_task only on
success, and end the conversation; a raise inside the success-path field
reads leaves the conversation stuck. -/
def finish_update (s1 : SysState) (u : Nat) (n : String) (fo : FetchOutcome) :
    SysState × List Msg :=
  let s2 := disarm s1 u n
  match setup_monitoring_task s2 u n fo with
  | none => (s2, [])
  | some (s3, success, msg) =>
    if success then
      match memTask s3 u n with
      | some t3 =>
        match t3.url, t3.selector, t3.initial_state with
        | some url2, some sel2, some st2 =>
          ({ s3 with db := db_update_task s3.db u n url2 sel2 st2,
                     conv := setA u Conv.idle s3.conv },
           [Msg.taskUpdated n msg])
        | _, _, _ => (s3, [Msg.taskUpdated n msg])
      | none => (s3, [Msg.taskUpdated n msg])
    else
      ({ s3 with conv := setA u Conv.idle s3.conv }, [Msg.taskUpdated n msg])

/-- receive_new_selector_and_update, lines 410-441.  Unless the text
lowercases to skip, the selector field is overwritten first (raising when
the task dict entry is gone, in which case nothing else runs); the rest of
the handler is finish_update. -/
def receive_new_selector_and_update (s : SysState) (u : Nat) (text : String)
    (fo : FetchOutcome) : SysState × List Msg :=
  match convOf s u with
  | Conv.updAwaitSelector n =>
    let step1 : Option SysState :=
      if lowerStr text = "skip" then some s
      else
        match getA u s.user_data with
        | some ud =>
          match getA n ud with
          | some t =>
            some { s with
              user_data := setA u (setA n { t with selector := some text } ud)
                s.user_data }
          | none => none
        | none => none
    match step1 with
    | none => (s, [])
    | some s1 => finish_update s1 u n fo
  | _ => (s, [])

/-- cancel, lines 444-462.  Registered only as a conversation fallback, so
it does nothing when the user is in no conversation.  The context key
task_name exists exactly in the add-flow states after the name step; the
partially created task is removed only when its dict is still empty. -/
def cancel (s : SysState) (u : Nat) : SysState × List Msg :=
  match convOf s u with
  | Conv.idle => (s, [])
  | c =>
    let s1 :=
      match c with
      | Conv.addAwaitUrl n | Conv.addAwaitSelector n =>
        match getA u s.user_data with
        | some ud =>
          match getA n ud with
          | some t =>
            if t = Task.emptyTask then
              { s with user_data := setA u (delA n ud) s.user_data }
            else s
          | none => s
        | none => s
      | _ => s
    ({ s1 with conv := setA u Conv.idle s1.conv }, [Msg.cancelled])

/-- check_website, lines 465-504: one firing of a scheduled job carrying the
key (u, n).  When the task is gone from user_data the job unschedules
itself and the firing is dropped.  Otherwise the fetch-and-select outcome
is the oracle fo; on a changed serialization the notification send comes
first (sendOk = false means it raises, in which case the except clause
swallows the error before any state was written), and only after a
successful send are the in-memory state and the row updated. -/
def check_website (s : SysState) (u : Nat) (n : String) (fo : FetchOutcome)
    (sendOk : Bool) : SysState × List Msg :=
  match memTask s u n with
  | none => ({ s with sched := remL (u, n) s.sched }, [])
  | some t =>
    match fo with
    | FetchOutcome.ok current_state =>
      if t.initial_state = some current_state then (s, [])
      else if sendOk then
        let t2 := { t with initial_state := some current_state }
        let ud := (getA u s.user_data).getD []
        ({ s with user_data := setA u (setA n t2 ud) s.user_data,
                  db := db_update_task_state s.db u n current_state },
         [Msg.changed n t.url])
      else (s, [])
    | FetchOutcome.notFound => (s, [])
    | FetchOutcome.fetchErr => (s, [])

/-- The states the running program can be in, starting from an empty
database.  One constructor per message handler or job firing; handler
guards (which conversation state a handler fires in) are part of the
handler functions.  Conversations of one user are serialized, as the
single-threaded dispatch of the bot does; durable writes are taken to
commit (dbOk = true) - their failure is analysed separately.  A job firing
requires the job to be scheduled at fire time. -/
inductive Reachable : SysState → Prop where
  | init : Reachable initState
  | add_step (s : SysState) (u : Nat) :
      Reachable s → Reachable (add_task s u).1
  | name_step (s : SysState) (u : Nat) (text : String) :
      Reachable s → Reachable (receive_task_name s u text).1
  | url_step (s : SysState) (u : Nat) (text : String) :
      Reachable s → Reachable (receive_url s u text).1
  | selector_step (s : SysState) (u : Nat) (text : String) (fo : FetchOutcome) :
      Reachable s → Reachable (receive_selector s u text fo true).1
  | cancel_step (s : SysState) (u : Nat) :
      Reachable s → Reachable (cancel s u).1
  | delete_entry_step (s : SysState) (u : Nat) :
      Reachable s → Reachable (delete_task s u).1
  | delete_step (s : SysState) (u : Nat) (text : String) :
      Reachable s → Reachable (receive_task_to_delete s u text).1
  | update_entry_step (s : SysState) (u : Nat) :
      Reachable s → Reachable (update_task s u).1
  | select_update_step (s : SysState) (u : Nat) (text : String) :
      Reachable s → Reachable (select_task_to_update s u text).1
  | new_url_step (s : SysState) (u : Nat) (text : String) :
      Reachable s → Reachable (receive_new_url s u text).1
  | new_selector_step (s : SysState) (u : Nat) (text : String) (fo : FetchOutcome) :
      Reachable s → Reachable (receive_new_selector_and_update s u text fo).1
  | fire_step (s : SysState) (u : Nat) (n : String) (fo : FetchOutcome) (sendOk : Bool) :
      Reachable s → schedHas s u n = true → Reachable (check_website s u n fo sendOk).1

section MoreAListLemmas

variable {α : Type u} {β : Type v} [DecidableEq α]

@[simp] theorem delA_setA_same (k : α) (v : β) (l : List (α × β)) :
    delA k (setA k v l) = delA k l := by
  induction l with
  | nil => simp [delA, setA]
  | cons p l ih =>
    obtain ⟨a, b⟩ := p
    by_cases h : a = k <;> simp [delA, setA, h, ih]

@[simp] theorem setA_setA_same (k : α) (v w : β) (l : List (α × β)) :
    setA k v (setA k w l) = setA k v l := by
  induction l with
  | nil => simp [setA]
  | cons p l ih =>
    obtain ⟨a, b⟩ := p
    by_cases h : a = k <;> simp [setA, h, ih]

theorem delA_of_getA_none (k : α) (l : List (α × β)) (h : getA k l = none) :
    delA k l = l := by
  induction l with
  | nil => simp [delA]
  | cons p l ih =>
    obtain ⟨a, b⟩ := p
    by_cases ha : a = k
    · subst ha
      simp [getA] at h
    · simp [getA, ha] at h
      simp [delA, ha, ih h]

theorem setA_of_getA_some (k : α) (v : β) (l : List (α × β)) (h : getA k l = some v) :
    setA k v l = l := by
  induction l with
  | nil => simp [getA] at h
  | cons p l ih =>
    obtain ⟨a, b⟩ := p
    by_cases ha : a = k
    · subst ha
      simp [getA] at h
      simp [setA, h]
    · simp [getA, ha] at h
      simp [setA, ha, ih h]

end MoreAListLemmas

/-! ## Claim C1: change detection on a successful poll -/

/-- Claim C1: for a scheduled poll whose fetch-and-extract succeeds with
serialization S1, against a stored snapshot S0 and with the notification
send succeeding: if S1 = S0 nothing at all is mutated and nothing sent; if
S1 differs, exactly one change notification goes to the owner, the
in-memory snapshot and the stored row are updated to S1, and a subsequent
poll returning S1 again sends nothing. -/
theorem c1_change_detection (s : SysState) (u : Nat) (n : String) (t : Task)
    (S0 S1 : String) (hmem : memTask s u n = some t)
    (hst : t.initial_state = some S0) :
    (S1 = S0 → check_website s u n (FetchOutcome.ok S1) true = (s, [])) ∧
    (S1 ≠ S0 →
      (check_website s u n (FetchOutcome.ok S1) true).2 = [Msg.changed n t.url] ∧
      memTask (check_website s u n (FetchOutcome.ok S1) true).1 u n =
        some { t with initial_state := some S1 } ∧
      (∀ r : Row, dbRow s u n = some r →
        dbRow (check_website s u n (FetchOutcome.ok S1) true).1 u n =
          some { r with initial_state := S1 }) ∧
      (check_website (check_website s u n (FetchOutcome.ok S1) true).1 u n
          (FetchOutcome.ok S1) true).2 = []) := by
  obtain ⟨ud, hud1, hud2⟩ :
      ∃ ud, getA u s.user_data = some ud ∧ getA n ud = some t := by
    cases h : getA u s.user_data with
    | none => simp [memTask, memTasks, h] at hmem
    | some ud => exact ⟨ud, rfl, by simpa [memTask, memTasks, h] using hmem⟩
  constructor
  · intro hEq
    subst hEq
    simp [check_website, hmem, hst]
  · intro hNe
    have hcond : ¬ (t.initial_state = some S1) := by
      rw [hst]
      simp [Ne.symm hNe]
    refine ⟨?_, ?_, ?_, ?_⟩
    · simp [check_website, hmem, hcond]
    · simp [check_website, hmem, hud2, hcond, memTask, memTasks, hud1]
    · intro r hr
      have hr2 : getA (u, n) s.db = some r := hr
      simp [check_website, hmem, hud2, hcond, dbRow, db_update_task_state, hr2]
    · simp [check_website, hmem, hud2, hcond, memTask, memTasks, hud1]

/-! ## Claim C2: behavior on notification delivery failure -/

/-- A concrete state with one armed, persisted task whose snapshot is a. -/
def c2_state : SysState :=
  ⟨[(1, [("t", ⟨some "u", some "c", some "a"⟩)])],
   [(1, [("t", ())])], [(1, "t")],
   [((1, "t"), ⟨"u", "c", "a"⟩)], []⟩

/-- Claim C2 counterexample: a poll detecting the change a to b whose
notification send fails leaves the whole state unchanged - in particular
the stored snapshot is NOT updated, contradicting the claim that the
snapshot update happens regardless of delivery failure. -/
theorem c2_counterexample :
    check_website c2_state 1 "t" (FetchOutcome.ok "b") false = (c2_state, []) ∧
    memTask (check_website c2_state 1 "t" (FetchOutcome.ok "b") false).1 1 "t" =
      some ⟨some "u", some "c", some "a"⟩ ∧
    dbRow (check_website c2_state 1 "t" (FetchOutcome.ok "b") false).1 1 "t" =
      some ⟨"u", "c", "a"⟩ := by
  decide

/-- Claim C2 amended: the notification send happens before the snapshot
update inside one try block, so a delivery failure aborts the cycle: the
state (memory and row) is unchanged and nothing is recorded; the change is
therefore re-detected and the notification re-attempted on the next poll -
delivery failure causes a repeated attempt rather than being absorbed. -/
theorem c2_amended (s : SysState) (u : Nat) (n : String) (t : Task) (S1 : String)
    (hmem : memTask s u n = some t)
    (hch : t.initial_state ≠ some S1) :
    check_website s u n (FetchOutcome.ok S1) false = (s, []) ∧
    (check_website s u n (FetchOutcome.ok S1) true).2 = [Msg.changed n t.url] := by
  constructor
  · simp [check_website, hmem, hch]
  · simp [check_website, hmem, hch]

/-! ## Claim C6: transient failures skip the cycle -/

/-- Claim C6: a scheduled poll whose fetch raises or whose selector matches
no element leaves the entire state untouched (snapshot, task fields, job,
row) and sends nothing; the job stays scheduled for the next cycle. -/
theorem c6_transient_failure_skips (s : SysState) (u : Nat) (n : String) (t : Task)
    (fo : FetchOutcome) (sendOk : Bool)
    (hmem : memTask s u n = some t)
    (hfo : fo = FetchOutcome.notFound ∨ fo = FetchOutcome.fetchErr) :
    check_website s u n fo sendOk = (s, []) := by
  rcases hfo with h | h <;> subst h <;> simp [check_website, hmem]

theorem disarm_user_data (s : SysState) (u : Nat) (n : String) :
    (disarm s u n).user_data = s.user_data := by
  unfold disarm
  split
  · split <;> rfl
  · rfl

theorem disarm_db (s : SysState) (u : Nat) (n : String) :
    (disarm s u n).db = s.db := by
  unfold disarm
  split
  · split <;> rfl
  · rfl

theorem disarm_conv (s : SysState) (u : Nat) (n : String) :
    (disarm s u n).conv = s.conv := by
  unfold disarm
  split
  · split <;> rfl
  · rfl

/-! ## Claim C7: a fired job whose task is gone self-disarms; deletion -/

/-- Claim C7: a firing whose task is no longer in the registry unschedules
the job and drops the firing without any other effect; and after the delete
flow removes a task (present in memory with a registered job), the task and
its job are gone, so no later firing for that key sends a notification or
re-arms anything. -/
theorem c7_deleted_task_never_fires (s : SysState) (u : Nat) (n : String)
    (fo fo2 : FetchOutcome) (sendOk sendOk2 : Bool)
    (hconv : convOf s u = Conv.delAwaitName)
    (hmem : memHasTask s u n = true)
    (hreg : regHas s u n = true) :
    (∀ s0 : SysState, memTask s0 u n = none →
        check_website s0 u n fo sendOk = ({ s0 with sched := remL (u, n) s0.sched }, [])) ∧
    memTask (receive_task_to_delete s u n).1 u n = none ∧
    schedHas (receive_task_to_delete s u n).1 u n = false ∧
    (check_website (receive_task_to_delete s u n).1 u n fo2 sendOk2).2 = [] ∧
    schedHas (check_website (receive_task_to_delete s u n).1 u n fo2 sendOk2).1 u n
      = false := by
  refine ⟨fun s0 h0 => by simp [check_website, h0], ?_⟩
  cases hjb : getA u s.jobs with
  | none => simp [regHas, hjb] at hreg
  | some jb =>
  cases hjn : getA n jb with
  | none => simp [regHas, hjb, hjn] at hreg
  | some jv =>
  cases hud : getA u s.user_data with
  | none => simp [memHasTask, memTask, memTasks, hud] at hmem
  | some ud =>
  cases hun : getA n ud with
  | none => simp [memHasTask, memTask, memTasks, hud, hun] at hmem
  | some tt =>
  have hmemfinal : memTask (receive_task_to_delete s u n).1 u n = none := by
    simp only [receive_task_to_delete, hconv, hjb, hjn, hud, hun]
    by_cases h1 : (delA n jb).isEmpty <;> by_cases h2 : (delA n ud).isEmpty <;>
      simp [h1, h2, memTask, memTasks]
  have hsched : (receive_task_to_delete s u n).1.sched = remL (u, n) s.sched := by
    simp only [receive_task_to_delete, hconv, hjb, hjn, hud, hun]
  refine ⟨hmemfinal, ?_, ?_, ?_⟩
  · simp [schedHas, hsched]
  · simp [check_website, hmemfinal]
  · simp [check_website, hmemfinal, schedHas]

/-- Claim C7 witness data: one armed, registered, persisted task and the
user positioned at the delete prompt. -/
def c7_state : SysState :=
  ⟨[(2, [("w", ⟨some "u", some "c", some "a"⟩)])],
   [(2, [("w", ())])], [(2, "w")],
   [((2, "w"), ⟨"u", "c", "a"⟩)], [(2, Conv.delAwaitName)]⟩

/-- Claim C7 witness: the theorem applied to the concrete state c7_state. -/
theorem c7_deleted_task_never_fires_witness :
    memTask (receive_task_to_delete c7_state 2 "w").1 2 "w" = none ∧
    schedHas (receive_task_to_delete c7_state 2 "w").1 2 "w" = false ∧
    (check_website (receive_task_to_delete c7_state 2 "w").1 2 "w"
      (FetchOutcome.ok "later") true).2 = [] := by
  have h := c7_deleted_task_never_fires c7_state 2 "w"
    (FetchOutcome.ok "x") (FetchOutcome.ok "later") true true
    (by decide) (by decide) (by decide)
  exact ⟨h.2.1, h.2.2.1, h.2.2.2.1⟩

/-! ## Claim C10: the skip sentinel is matched case-insensitively -/

/-- In every outcome of setup_monitoring_task the task entry keeps its url
and selector (only initial_state may be written), and on success all three
fields are populated. -/
theorem setup_keeps_fields (s : SysState) (u : Nat) (n : String)
    (fo : FetchOutcome) (t : Task) (hmem : memTask s u n = some t) :
    ∃ r : SysState × Bool × Msg, setup_monitoring_task s u n fo = some r ∧
      ∃ t2 : Task, memTask r.1 u n = some t2 ∧ t2.url = t.url ∧
        t2.selector = t.selector ∧
        (r.2.1 = true →
          (t2.url.isSome ∧ t2.selector.isSome ∧ t2.initial_state.isSome)) := by
  obtain ⟨ud, hud1, hud2⟩ :
      ∃ ud, getA u s.user_data = some ud ∧ getA n ud = some t := by
    cases h : getA u s.user_data with
    | none => simp [memTask, memTasks, h] at hmem
    | some ud => exact ⟨ud, rfl, by simpa [memTask, memTasks, h] using hmem⟩
  obtain ⟨turl, tsel, tst⟩ := t
  unfold setup_monitoring_task
  rw [hmem]
  cases turl with
  | none =>
    cases tsel with
    | none => exact ⟨_, rfl, _, hmem, rfl, rfl, by simp⟩
    | some sel0 => exact ⟨_, rfl, _, hmem, rfl, rfl, by simp⟩
  | some url0 =>
    cases tsel with
    | none => exact ⟨_, rfl, _, hmem, rfl, rfl, by simp⟩
    | some sel0 =>
      by_cases hemp : url0 = "" ∨ sel0 = ""
      · simp only [if_pos hemp]
        exact ⟨_, rfl, _, hmem, rfl, rfl, by simp⟩
      · simp only [if_neg hemp]
        cases fo with
        | fetchErr => exact ⟨_, rfl, _, hmem, rfl, rfl, by simp⟩
        | notFound => exact ⟨_, rfl, _, hmem, rfl, rfl, by simp⟩
        | ok snap =>
          rw [hud1]
          cases hjb : getA u s.jobs with
          | some jb =>
            refine ⟨_, rfl, ⟨some url0, some sel0, some snap⟩, ?_, rfl, rfl, by simp⟩
            simp [memTask, memTasks, hud1, hud2]
          | none =>
            refine ⟨_, rfl, ⟨some url0, some sel0, some snap⟩, ?_, rfl, rfl, by simp⟩
            simp [memTask, memTasks, hud1, hud2]

/-- Claim C10: in the update flow any input lowercasing to skip keeps the
corresponding field: the url step leaves the task dict untouched, and the
selector step leaves url and selector as they were (only the snapshot may
be refreshed by the re-validation). -/
theorem c10_skip_keeps_fields (s : SysState) (u : Nat) (n : String) (t : Task)
    (text : String) (fo : FetchOutcome)
    (hskip : lowerStr text = "skip") :
    (convOf s u = Conv.updAwaitUrl n → memTask s u n = some t →
      memTask (receive_new_url s u text).1 u n = some t) ∧
    (convOf s u = Conv.updAwaitSelector n → memTask s u n = some t →
      ∃ t2, memTask (receive_new_selector_and_update s u text fo).1 u n = some t2 ∧
        t2.selector = t.selector ∧ t2.url = t.url) := by
  constructor
  · intro hconv hmem
    obtain ⟨ud, hud1, hud2⟩ :
        ∃ ud, getA u s.user_data = some ud ∧ getA n ud = some t := by
      cases h : getA u s.user_data with
      | none => simp [memTask, memTasks, h] at hmem
      | some ud => exact ⟨ud, rfl, by simpa [memTask, memTasks, h] using hmem⟩
    obtain ⟨turl, tsel, tst⟩ := t
    simp only [receive_new_url, hconv, hud1, hud2, hskip]
    cases tsel with
    | none => simpa [memTask, memTasks, hud1, hud2] using hmem
    | some sel0 => simpa [memTask, memTasks, hud1, hud2] using hmem
  · intro hconv hmem
    have hm2 : memTask (disarm s u n) u n = some t := by
      unfold memTask memTasks
      rw [disarm_user_data]
      exact hmem
    obtain ⟨r, hr, t2, ht2, hurl, hsel, hsucc⟩ :=
      setup_keeps_fields (disarm s u n) u n fo t hm2
    obtain ⟨s3, success, msg⟩ := r
    simp only [receive_new_selector_and_update, hconv, hskip, finish_update]
    rw [if_pos trivial]
    dsimp only
    rw [hr]
    cases success with
    | false => exact ⟨t2, by simpa [memTask, memTasks] using ht2, hsel, hurl⟩
    | true =>
      obtain ⟨hu2, hs2, hi2⟩ := hsucc rfl
      obtain ⟨t2u, t2s, t2i⟩ := t2
      obtain ⟨url2, hu3⟩ := Option.isSome_iff_exists.mp hu2
      obtain ⟨sel2, hs3⟩ := Option.isSome_iff_exists.mp hs2
      obtain ⟨st2, hi3⟩ := Option.isSome_iff_exists.mp hi2
      subst hu3
      subst hs3
      subst hi3
      have ht3 : memTask s3 u n = some ⟨some url2, some sel2, some st2⟩ := ht2
      dsimp only
      rw [ht3]
      exact ⟨_, by simpa [memTask, memTasks] using ht3, hsel, hurl⟩

/-! ## Claim C5: ordering of store write and job arming in the create flow -/

/-- Claim C5 data: the create flow at the selector step for a fresh task,
empty database, per-user jobs dict present (as receive_task_name ensures). -/
def c5_state : SysState :=
  ⟨[(1, [("t", ⟨some "u", none, none⟩)])], [(1, [])], [], [],
   [(1, Conv.addAwaitSelector "t")]⟩

/-- Claim C5 counterexample: the create flow arms the recurring job inside
setup_monitoring_task before the caller runs db_add_task, so a failing
INSERT (modelled by dbOk = false) leaves the job scheduled with no matching
stored row - contradicting both the claimed write-before-arm ordering and
its claimed consequence. -/
theorem c5_counterexample :
    schedHas (receive_selector c5_state 1 "sel" (FetchOutcome.ok "snap") false).1 1 "t"
      = true ∧
    dbHas (receive_selector c5_state 1 "sel" (FetchOutcome.ok "snap") false).1 1 "t"
      = false := by
  decide

/-- Claim C5 amended: the create flow arms the job first and persists
second; whenever the store write fails after a successful validation the
job for the key stays scheduled, the row is still absent, and the
conversation is left stuck at the selector step. -/
theorem c5_amended (s : SysState) (u : Nat) (n : String) (t : Task)
    (text snap url0 : String)
    (hconv : convOf s u = Conv.addAwaitSelector n)
    (hmem : memTask s u n = some t)
    (hurl : t.url = some url0) (hurl2 : url0 ≠ "") (htext : text ≠ "")
    (hjobs : (getA u s.jobs).isSome = true)
    (hdb : dbHas s u n = false) :
    schedHas (receive_selector s u text (FetchOutcome.ok snap) false).1 u n = true ∧
    dbHas (receive_selector s u text (FetchOutcome.ok snap) false).1 u n = false ∧
    convOf (receive_selector s u text (FetchOutcome.ok snap) false).1 u
      = Conv.addAwaitSelector n := by
  obtain ⟨ud, hud1, hud2⟩ :
      ∃ ud, getA u s.user_data = some ud ∧ getA n ud = some t := by
    cases h : getA u s.user_data with
    | none => simp [memTask, memTasks, h] at hmem
    | some ud => exact ⟨ud, rfl, by simpa [memTask, memTasks, h] using hmem⟩
  obtain ⟨jb, hjb⟩ := Option.isSome_iff_exists.mp hjobs
  obtain ⟨turl, tsel, tst⟩ := t
  simp only [Task.url] at hurl
  subst hurl
  have hdb2 : getA (u, n) s.db = none := by
    simp only [dbHas, dbRow] at hdb
    exact Option.not_isSome_iff_eq_none.mp (by simp [hdb])
  simp only [receive_selector, hconv, hud1, hud2]
  simp only [setup_monitoring_task, memTask, memTasks]
  simp only [getA_setA_same, Option.some_bind, hud1, Option.getD_some]
  simp only [if_neg (by simp [hurl2, htext] : ¬ (url0 = "" ∨ text = ""))]
  simp only [hjb]
  simp [memTask, memTasks, dbHas, dbRow, hdb2, schedHas, convOf, hconv, hud1,
    db_update_task_state]
  exact hconv

/-- Claim C5 amended witness: the amended theorem applied at c5_state. -/
theorem c5_amended_witness :
    schedHas (receive_selector c5_state 1 "sel" (FetchOutcome.ok "snap") false).1 1 "t"
      = true ∧
    convOf (receive_selector c5_state 1 "sel" (FetchOutcome.ok "snap") false).1 1
      = Conv.addAwaitSelector "t" := by
  have h := c5_amended c5_state 1 "t" ⟨some "u", none, none⟩ "sel" "snap" "u"
    (by decide) (by decide) rfl (by decide) (by decide) (by decide) (by decide)
  exact ⟨h.1, h.2.2⟩

/-! ## Claim C3: state left behind by an update whose validation fails -/

/-- Claim C3 data: one armed, registered, persisted task, its owner at the
new-url prompt of the update flow. -/
def c3_state : SysState :=
  ⟨[(1, [("t", ⟨some "u0", some "s0", some "x0"⟩)])],
   [(1, [("t", ())])], [(1, "t")],
   [((1, "t"), ⟨"u0", "s0", "x0"⟩)], [(1, Conv.updAwaitUrl "t")]⟩

/-- The state after sending a new url and a new selector whose validation
ends in notFound. -/
def c3_final : SysState :=
  (receive_new_selector_and_update (receive_new_url c3_state 1 "newu").1 1 "news"
    FetchOutcome.notFound).1

/-- Claim C3 counterexample: after the failed update the stored row still
holds the pre-update url and selector, but the in-memory task already holds
the new ones - the claim that the in-memory url and selector retain their
pre-update values is false (the job removal and row retention parts do
hold). -/
theorem c3_counterexample :
    memTask c3_final 1 "t" = some ⟨some "newu", some "news", some "x0"⟩ ∧
    dbRow c3_final 1 "t" = some ⟨"u0", "s0", "x0"⟩ ∧
    schedHas c3_final 1 "t" = false ∧
    convOf c3_final 1 = Conv.idle := by
  decide

/-- Claim C3 amended: when the update flow receives non-skip values and the
validation fails, the task ends disarmed and its stored row keeps the
pre-update values, but the in-memory url and selector already hold the
newly provided values - memory and store are desynchronized; the flow ends
with the task still stored yet not polled. -/
theorem c3_amended (s : SysState) (u : Nat) (n : String) (t : Task)
    (newu news : String) (fo : FetchOutcome)
    (hconv : convOf s u = Conv.updAwaitUrl n)
    (hmem : memTask s u n = some t)
    (hsel : t.selector.isSome = true)
    (hreg : regHas s u n = true)
    (hnewu : lowerStr newu ≠ "skip") (hnews : lowerStr news ≠ "skip")
    (hfo : fo = FetchOutcome.notFound ∨ fo = FetchOutcome.fetchErr) :
    schedHas (receive_new_selector_and_update (receive_new_url s u newu).1 u news fo).1
      u n = false ∧
    (receive_new_selector_and_update (receive_new_url s u newu).1 u news fo).1.db
      = s.db ∧
    memTask (receive_new_selector_and_update (receive_new_url s u newu).1 u news fo).1
      u n = some { t with url := some newu, selector := some news } ∧
    convOf (receive_new_selector_and_update (receive_new_url s u newu).1 u news fo).1
      u = Conv.idle := by
  obtain ⟨ud, hud1, hud2⟩ :
      ∃ ud, getA u s.user_data = some ud ∧ getA n ud = some t := by
    cases h : getA u s.user_data with
    | none => simp [memTask, memTasks, h] at hmem
    | some ud => exact ⟨ud, rfl, by simpa [memTask, memTasks, h] using hmem⟩
  obtain ⟨jb, hjb1, hjb2⟩ :
      ∃ jb, getA u s.jobs = some jb ∧ (getA n jb).isSome = true := by
    unfold regHas at hreg
    cases h : getA u s.jobs with
    | none => rw [h] at hreg; simp at hreg
    | some jb => rw [h] at hreg; exact ⟨jb, rfl, by simpa using hreg⟩
  obtain ⟨jv, hjv⟩ := Option.isSome_iff_exists.mp hjb2
  obtain ⟨turl, tsel, tst⟩ := t
  obtain ⟨sel0, hsel0⟩ := Option.isSome_iff_exists.mp hsel
  simp only [Task.selector] at hsel0
  subst hsel0
  have h1 : (receive_new_url s u newu).1 =
      ⟨setA u (setA n ⟨some newu, some sel0, tst⟩ ud) s.user_data, s.jobs, s.sched,
       s.db, setA u (Conv.updAwaitSelector n) s.conv⟩ := by
    simp only [receive_new_url, hconv, hud1, hud2, if_neg hnewu]
  rw [h1]
  have hconv1 : convOf (⟨setA u (setA n ⟨some newu, some sel0, tst⟩ ud) s.user_data,
      s.jobs, s.sched, s.db, setA u (Conv.updAwaitSelector n) s.conv⟩ : SysState) u
      = Conv.updAwaitSelector n := by
    simp [convOf]
  simp only [receive_new_selector_and_update, hconv1, if_neg hnews,
    getA_setA_same, setA_setA_same, finish_update]
  simp only [disarm, hjb1, hjv]
  simp only [setup_monitoring_task, memTask, memTasks, getA_setA_same,
    Option.some_bind]
  rcases hfo with h | h <;> subst h <;>
    by_cases hemp : newu = "" ∨ news = "" <;>
      simp [hemp, schedHas, memTask, memTasks, convOf, dbHas]

/-- Claim C3 amended witness: the amended theorem applied at c3_state. -/
theorem c3_amended_witness :
    schedHas c3_final 1 "t" = false ∧
    c3_final.db = c3_state.db ∧
    memTask c3_final 1 "t" = some ⟨some "newu", some "news", some "x0"⟩ ∧
    convOf c3_final 1 = Conv.idle :=
  c3_amended c3_state 1 "t" ⟨some "u0", some "s0", some "x0"⟩ "newu" "news"
    FetchOutcome.notFound (by decide) (by decide) (by decide) (by decide)
    (by decide) (by decide) (Or.inl rfl)

/-- Claim C1 witness: the change-detection theorem applied at c2_state. -/
theorem c1_change_detection_witness :
    (check_website c2_state 1 "t" (FetchOutcome.ok "b") true).2
      = [Msg.changed "t" (some "u")] ∧
    memTask (check_website c2_state 1 "t" (FetchOutcome.ok "b") true).1 1 "t" =
      some ⟨some "u", some "c", some "b"⟩ := by
  have h := c1_change_detection c2_state 1 "t" ⟨some "u", some "c", some "a"⟩ "a" "b"
    (by decide) rfl
  exact ⟨(h.2 (by decide)).1, (h.2 (by decide)).2.1⟩

/-- Claim C2 amended witness: the amended theorem applied at c2_state. -/
theorem c2_amended_witness :
    check_website c2_state 1 "t" (FetchOutcome.ok "b") false = (c2_state, []) ∧
    (check_website c2_state 1 "t" (FetchOutcome.ok "b") true).2
      = [Msg.changed "t" (some "u")] :=
  c2_amended c2_state 1 "t" ⟨some "u", some "c", some "a"⟩ "b" (by decide) (by decide)

/-- Claim C6 witness: the transient-failure theorem applied at c2_state. -/
theorem c6_transient_failure_skips_witness :
    check_website c2_state 1 "t" FetchOutcome.notFound true = (c2_state, []) :=
  c6_transient_failure_skips c2_state 1 "t" ⟨some "u", some "c", some "a"⟩
    FetchOutcome.notFound true (by decide) (Or.inl rfl)

/-- Claim C10 witness data: a task mid update flow at the url prompt. -/
def c10_state : SysState :=
  ⟨[(3, [("p", ⟨some "u", some "c", some "a"⟩)])], [(3, [("p", ())])], [(3, "p")],
   [((3, "p"), ⟨"u", "c", "a"⟩)], [(3, Conv.updAwaitUrl "p")]⟩

/-- Claim C10 witness: the theorem applied with the input Skip. -/
theorem c10_skip_keeps_fields_witness :
    lowerStr "Skip" = "skip" ∧
    memTask (receive_new_url c10_state 3 "Skip").1 3 "p" =
      some ⟨some "u", some "c", some "a"⟩ := by
  refine ⟨by decide, ?_⟩
  exact (c10_skip_keeps_fields c10_state 3 "p" ⟨some "u", some "c", some "a"⟩ "Skip"
    (FetchOutcome.ok "z") (by decide)).1 (by decide) (by decide)

/-! ## Claim C8: a create whose validation fails leaves no trace -/

/-- Whenever the task is missing a field, has an empty url or selector, or
the fetch-extract pass fails, setup_monitoring_task fails without touching
the state, returning one of the three failure messages. -/
theorem setup_fails (s : SysState) (u : Nat) (n : String) (fo : FetchOutcome)
    (t : Task) (hmem : memTask s u n = some t)
    (hfail : t.url = none ∨ t.selector = none ∨ t.url = some "" ∨ t.selector = some ""
      ∨ fo = FetchOutcome.notFound ∨ fo = FetchOutcome.fetchErr) :
    ∃ msg, setup_monitoring_task s u n fo = some (s, false, msg) ∧
      (msg = Msg.setupWrong ∨ msg = Msg.setupNotFound ∨ msg = Msg.setupFetchError) := by
  obtain ⟨turl, tsel, tst⟩ := t
  unfold setup_monitoring_task
  rw [hmem]
  cases turl with
  | none =>
    cases tsel <;> exact ⟨Msg.setupWrong, rfl, Or.inl rfl⟩
  | some url0 =>
    cases tsel with
    | none => exact ⟨Msg.setupWrong, rfl, Or.inl rfl⟩
    | some sel0 =>
      by_cases hemp : url0 = "" ∨ sel0 = ""
      · exact ⟨Msg.setupWrong, by simp [hemp], Or.inl rfl⟩
      · have hfo : fo = FetchOutcome.notFound ∨ fo = FetchOutcome.fetchErr := by
          rcases hfail with h | h | h | h | h | h
          · exact absurd h (by simp)
          · exact absurd h (by simp)
          · exact absurd h (by simp_all)
          · exact absurd h (by simp_all)
          · exact Or.inl h
          · exact Or.inr h
        rcases hfo with h | h <;> subst h
        · exact ⟨Msg.setupNotFound, by simp [hemp], Or.inr (Or.inl rfl)⟩
        · exact ⟨Msg.setupFetchError, by simp [hemp], Or.inr (Or.inr rfl)⟩

/-- Claim C8: running the whole create flow (name, url, selector) with a
validation that fails leaves the owner task registry extensionally as it
was, the database and the scheduled jobs untouched, the conversation ended,
and the user holding a failure message followed by the retry prompt. -/
theorem c8_failed_create_clean (s : SysState) (u : Nat)
    (name urlText selText : String) (fo : FetchOutcome)
    (hconv : convOf s u = Conv.addAwaitName)
    (hnew : memTask s u name = none)
    (hfo : fo = FetchOutcome.notFound ∨ fo = FetchOutcome.fetchErr) :
    (∀ m : String,
      memTask (receive_selector (receive_url (receive_task_name s u name).1 u urlText).1
        u selText fo true).1 u m = memTask s u m) ∧
    (receive_selector (receive_url (receive_task_name s u name).1 u urlText).1
        u selText fo true).1.db = s.db ∧
    (receive_selector (receive_url (receive_task_name s u name).1 u urlText).1
        u selText fo true).1.sched = s.sched ∧
    convOf (receive_selector (receive_url (receive_task_name s u name).1 u urlText).1
        u selText fo true).1 u = Conv.idle ∧
    ∃ msg, (receive_selector (receive_url (receive_task_name s u name).1 u urlText).1
        u selText fo true).2 = [msg, Msg.tryAgainAdd] ∧
      (msg = Msg.setupWrong ∨ msg = Msg.setupNotFound ∨ msg = Msg.setupFetchError) := by
  obtain ⟨ud0, hud0, hmemall, hname⟩ :
      ∃ ud0, (getA u s.user_data).getD [] = ud0 ∧
        (∀ m : String, memTask s u m = getA m ud0) ∧ getA name ud0 = none := by
    cases h : getA u s.user_data with
    | none => exact ⟨[], by simp [h], fun m => by simp [memTask, memTasks, h], rfl⟩
    | some ud0 =>
      exact ⟨ud0, by simp [h], fun m => by simp [memTask, memTasks, h],
        by simpa [memTask, memTasks, h] using hnew⟩
  have h1 : (receive_task_name s u name).1 =
      ⟨setA u (setA name Task.emptyTask ud0) s.user_data,
       setA u ((getA u s.jobs).getD []) s.jobs, s.sched, s.db,
       setA u (Conv.addAwaitUrl name) s.conv⟩ := by
    simp only [receive_task_name, hconv, hud0, hname]
    simp [setA_setA_same]
  have h2 : (receive_url (receive_task_name s u name).1 u urlText).1 =
      ⟨setA u (setA name ⟨some urlText, none, none⟩ ud0) s.user_data,
       setA u ((getA u s.jobs).getD []) s.jobs, s.sched, s.db,
       setA u (Conv.addAwaitSelector name) s.conv⟩ := by
    rw [h1]
    simp [receive_url, convOf, Task.emptyTask, setA_setA_same]
  rw [h2]
  have hm3 : memTask (⟨setA u (setA name ⟨some urlText, some selText, none⟩ ud0)
        s.user_data, setA u ((getA u s.jobs).getD []) s.jobs, s.sched, s.db,
        setA u (Conv.addAwaitSelector name) s.conv⟩ : SysState) u name =
      some ⟨some urlText, some selText, none⟩ := by
    simp [memTask, memTasks]
  obtain ⟨msg, hsetup, hmsg⟩ :=
    setup_fails (⟨setA u (setA name ⟨some urlText, some selText, none⟩ ud0)
        s.user_data, setA u ((getA u s.jobs).getD []) s.jobs, s.sched, s.db,
        setA u (Conv.addAwaitSelector name) s.conv⟩ : SysState) u name fo
      ⟨some urlText, some selText, none⟩ hm3
      (Or.inr (Or.inr (Or.inr (Or.inr hfo))))
  have hres : receive_selector (⟨setA u (setA name ⟨some urlText, none, none⟩ ud0)
        s.user_data, setA u ((getA u s.jobs).getD []) s.jobs, s.sched, s.db,
        setA u (Conv.addAwaitSelector name) s.conv⟩ : SysState) u selText fo true =
      (⟨(if ud0.isEmpty then delA u s.user_data else setA u ud0 s.user_data),
        setA u ((getA u s.jobs).getD []) s.jobs, s.sched, s.db,
        setA u Conv.idle s.conv⟩,
       [msg, Msg.tryAgainAdd]) := by
    simp only [receive_selector, convOf, getA_setA_same, Option.getD_some,
      setA_setA_same]
    rw [hsetup]
    simp only [Bool.false_eq_true, if_false]
    simp [delA_setA_same, delA_of_getA_none name ud0 hname, setA_setA_same]
  rw [hres]
  refine ⟨?_, rfl, rfl, by simp [convOf], msg, rfl, hmsg⟩
  intro m
  rw [hmemall m]
  by_cases hE : ud0.isEmpty
  · have hnil : ud0 = [] := by
      cases ud0 with
      | nil => rfl
      | cons a l => simp [List.isEmpty] at hE
    subst hnil
    simp [memTask, memTasks, hE]
  · simp [memTask, memTasks, hE]

/-- Claim C8 witness data: a user at the name prompt over an empty system. -/
def c8_state : SysState := ⟨[], [], [], [], [(4, Conv.addAwaitName)]⟩

/-- Claim C8 witness: the theorem applied at c8_state. -/
theorem c8_failed_create_clean_witness :
    memTask (receive_selector (receive_url (receive_task_name c8_state 4 "t").1
      4 "http").1 4 "sel" FetchOutcome.notFound true).1 4 "t"
      = memTask c8_state 4 "t" ∧
    (receive_selector (receive_url (receive_task_name c8_state 4 "t").1
      4 "http").1 4 "sel" FetchOutcome.notFound true).1.db = c8_state.db := by
  have h := c8_failed_create_clean c8_state 4 "t" "http" "sel" FetchOutcome.notFound
    (by decide) (by decide) (Or.inl rfl)
  exact ⟨h.1 "t", h.2.1⟩

/-! ## Claim C9: cancel after the url step leaves the partial task behind -/

/-- Claim C9: cancelling a create right after the name step removes the
empty placeholder, but cancelling after the url step leaves the partial
task (url only, no selector, no snapshot) in the in-memory registry; a
later create by the same owner reusing that name is then rejected as a
duplicate, with the flow re-prompting in the name state. -/
theorem c9_cancel_leaves_partial (s : SysState) (u : Nat) (name urlText : String)
    (hconv : convOf s u = Conv.addAwaitName)
    (hnew : memTask s u name = none) :
    memTask (cancel (receive_task_name s u name).1 u).1 u name = none ∧
    memTask (cancel (receive_url (receive_task_name s u name).1 u urlText).1 u).1
      u name = some ⟨some urlText, none, none⟩ ∧
    convOf (cancel (receive_url (receive_task_name s u name).1 u urlText).1 u).1 u
      = Conv.idle ∧
    (receive_task_name (add_task (cancel (receive_url (receive_task_name s u name).1
        u urlText).1 u).1 u).1 u name).2 = [Msg.duplicateName] ∧
    convOf (receive_task_name (add_task (cancel (receive_url
        (receive_task_name s u name).1 u urlText).1 u).1 u).1 u name).1 u
      = Conv.addAwaitName := by
  obtain ⟨ud0, hud0, hmemall, hname⟩ :
      ∃ ud0, (getA u s.user_data).getD [] = ud0 ∧
        (∀ m : String, memTask s u m = getA m ud0) ∧ getA name ud0 = none := by
    cases h : getA u s.user_data with
    | none => exact ⟨[], by simp [h], fun m => by simp [memTask, memTasks, h], rfl⟩
    | some ud0 =>
      exact ⟨ud0, by simp [h], fun m => by simp [memTask, memTasks, h],
        by simpa [memTask, memTasks, h] using hnew⟩
  have h1 : (receive_task_name s u name).1 =
      ⟨setA u (setA name Task.emptyTask ud0) s.user_data,
       setA u ((getA u s.jobs).getD []) s.jobs, s.sched, s.db,
       setA u (Conv.addAwaitUrl name) s.conv⟩ := by
    simp only [receive_task_name, hconv, hud0, hname]
    simp [setA_setA_same]
  refine ⟨?_, ?_⟩
  · rw [h1]
    simp only [cancel, convOf, getA_setA_same, Option.getD_some, getA_setA_same]
    simp [Task.emptyTask, delA_setA_same, delA_of_getA_none name ud0 hname,
      setA_setA_same, memTask, memTasks, hname]
  have h2 : (receive_url (receive_task_name s u name).1 u urlText).1 =
      ⟨setA u (setA name ⟨some urlText, none, none⟩ ud0) s.user_data,
       setA u ((getA u s.jobs).getD []) s.jobs, s.sched, s.db,
       setA u (Conv.addAwaitSelector name) s.conv⟩ := by
    rw [h1]
    simp [receive_url, convOf, Task.emptyTask, setA_setA_same]
  rw [h2]
  have h3 : (cancel (⟨setA u (setA name ⟨some urlText, none, none⟩ ud0) s.user_data,
       setA u ((getA u s.jobs).getD []) s.jobs, s.sched, s.db,
       setA u (Conv.addAwaitSelector name) s.conv⟩ : SysState) u).1 =
      ⟨setA u (setA name ⟨some urlText, none, none⟩ ud0) s.user_data,
       setA u ((getA u s.jobs).getD []) s.jobs, s.sched, s.db,
       setA u Conv.idle s.conv⟩ := by
    simp only [cancel, convOf, getA_setA_same, Option.getD_some]
    simp [Task.emptyTask, setA_setA_same]
  rw [h3]
  refine ⟨by simp [memTask, memTasks], by simp [convOf], ?_⟩
  have h4 : (add_task (⟨setA u (setA name ⟨some urlText, none, none⟩ ud0) s.user_data,
       setA u ((getA u s.jobs).getD []) s.jobs, s.sched, s.db,
       setA u Conv.idle s.conv⟩ : SysState) u).1 =
      ⟨setA u (setA name ⟨some urlText, none, none⟩ ud0) s.user_data,
       setA u ((getA u s.jobs).getD []) s.jobs, s.sched, s.db,
       setA u Conv.addAwaitName s.conv⟩ := by
    simp only [add_task, convOf, getA_setA_same, Option.getD_some]
    simp [setA_setA_same]
  rw [h4]
  constructor
  · simp only [receive_task_name, convOf, getA_setA_same, Option.getD_some]
    simp
  · simp only [receive_task_name, convOf, getA_setA_same, Option.getD_some]
    simp [convOf]

/-- Claim C9 witness: the theorem applied over an empty system with the
name p and the url h. -/
theorem c9_cancel_leaves_partial_witness :
    memTask (cancel (receive_url (receive_task_name
      (⟨[], [], [], [], [(5, Conv.addAwaitName)]⟩ : SysState) 5 "p").1 5 "h").1 5).1
      5 "p" = some ⟨some "h", none, none⟩ ∧
    (receive_task_name (add_task (cancel (receive_url (receive_task_name
      (⟨[], [], [], [], [(5, Conv.addAwaitName)]⟩ : SysState) 5 "p").1 5 "h").1 5).1
      5).1 5 "p").2 = [Msg.duplicateName] := by
  have h := c9_cancel_leaves_partial (⟨[], [], [], [], [(5, Conv.addAwaitName)]⟩ :
    SysState) 5 "p" "h" (by decide) (by decide)
  exact ⟨h.2.1, h.2.2.2.1⟩

/-! ## Claim C4: the store-iff-job invariant over reachable states -/

/-- The invariant claimed by the specification, read as generously as
possible: whenever no conversation at all is in flight (so no creation or
update validation can be pending for anyone - the steps of the model are
atomic, the in-flight window lies inside a step), every task is stored
exactly when its job is scheduled. -/
def storeJobInvariant (s : SysState) : Prop :=
  (∀ u2 : Nat, convOf s u2 = Conv.idle) →
    ∀ (u2 : Nat) (n2 : String), dbHas s u2 n2 = schedHas s u2 n2

/-- The degraded trace: create task t successfully, then run an update with
skip for both fields whose re-validation fails. -/
def c4_bad : SysState :=
  (receive_new_selector_and_update
    (receive_new_url
      (select_task_to_update
        (update_task
          (receive_selector
            (receive_url
              (receive_task_name
                (add_task initState 1).1 1 "t").1 1 "h").1
            1 "c" (FetchOutcome.ok "s0") true).1
        1).1 1 "t").1 1 "skip").1 1 "skip" FetchOutcome.fetchErr).1

theorem c4_bad_reachable : Reachable c4_bad :=
  Reachable.new_selector_step _ 1 "skip" FetchOutcome.fetchErr
    (Reachable.new_url_step _ 1 "skip"
      (Reachable.select_update_step _ 1 "t"
        (Reachable.update_entry_step _ 1
          (Reachable.selector_step _ 1 "c" (FetchOutcome.ok "s0")
            (Reachable.url_step _ 1 "h"
              (Reachable.name_step _ 1 "t"
                (Reachable.add_step _ 1 Reachable.init)))))))

/-- Claim C4 counterexample: after a completed update whose validation
failed - a reachable state with every conversation idle - the task is still
in the durable store but has no scheduled job, so the claimed iff fails
outside any in-flight window. -/
theorem c4_counterexample : Reachable c4_bad ∧ ¬ storeJobInvariant c4_bad := by
  constructor
  · exact c4_bad_reachable
  · intro h
    have hval : c4_bad =
        ⟨[(1, [("t", ⟨some "h", some "c", some "s0"⟩)])], [(1, [])], [],
         [((1, "t"), ⟨"h", "c", "s0"⟩)], [(1, Conv.idle)]⟩ := by decide
    have hidle : ∀ u2 : Nat, convOf c4_bad u2 = Conv.idle := by
      intro u2
      rw [hval]
      by_cases h12 : (1 : Nat) = u2 <;> simp [convOf, getA, h12]
    have h2 := h hidle 1 "t"
    rw [hval] at h2
    simp [dbHas, dbRow, schedHas, getA, memL] at h2

/-- Both dict keys of a task needed by a poll are present. -/
def Task.complete (t : Task) : Bool := t.url.isSome && t.selector.isSome

/-- The structural invariant every reachable state satisfies (durable
writes taken to commit): a scheduled job that is still tracked in the jobs
registry has a stored row; a stored row always has an in-memory task; a
complete in-memory task is stored; and while an add or update flow is
pending the task under construction has the shape the flow guarantees
(nothing stored and no selector yet for a pending add; url, and at the
selector step also selector, present for a pending update).  No unguarded
link from the scheduler to the rest is invariant: the registry-KeyError
path of setup_monitoring_task arms a job it then fails to record, and such
a leaked job outlives both the registry and - once the task is deleted,
since deletion only cancels registry-tracked jobs - the stored row and the
in-memory task, until its own next firing self-disarms it.  Nor is there a
converse for rows: a stored row with no job - the degraded state of
c4_counterexample - is allowed. -/
structure Inv (s : SysState) : Prop where
  sr_db : ∀ u n, schedHas s u n = true → regHas s u n = true →
    dbHas s u n = true
  db_mem : ∀ u n, dbHas s u n = true → memHasTask s u n = true
  complete_db : ∀ u n t, memTask s u n = some t → Task.complete t = true →
    dbHas s u n = true
  conv_addUrl : ∀ u n, convOf s u = Conv.addAwaitUrl n →
    dbHas s u n = false ∧ ∀ t, memTask s u n = some t → t.selector = none
  conv_addSel : ∀ u n, convOf s u = Conv.addAwaitSelector n →
    dbHas s u n = false
  conv_updUrl : ∀ u n, convOf s u = Conv.updAwaitUrl n →
    ∃ t, memTask s u n = some t ∧ t.url.isSome = true
  conv_updSel : ∀ u n, convOf s u = Conv.updAwaitSelector n →
    ∃ t, memTask s u n = some t ∧ t.url.isSome = true ∧ t.selector.isSome = true

theorem regHas_eq (s : SysState) (u : Nat) (n : String) :
    regHas s u n = (getA n ((getA u s.jobs).getD [])).isSome := by
  unfold regHas
  split <;> simp_all

@[simp] theorem memTask_mk (a : List (Nat × List (String × Task)))
    (b : List (Nat × List (String × Unit))) (c : List (Nat × String))
    (d : List ((Nat × String) × Row)) (e : List (Nat × Conv)) (u : Nat) (n : String) :
    memTask ⟨a, b, c, d, e⟩ u n = (getA u a).bind (getA n) := rfl

@[simp] theorem memHasTask_mk (a : List (Nat × List (String × Task)))
    (b : List (Nat × List (String × Unit))) (c : List (Nat × String))
    (d : List ((Nat × String) × Row)) (e : List (Nat × Conv)) (u : Nat) (n : String) :
    memHasTask ⟨a, b, c, d, e⟩ u n = ((getA u a).bind (getA n)).isSome := rfl

@[simp] theorem schedHas_mk (a : List (Nat × List (String × Task)))
    (b : List (Nat × List (String × Unit))) (c : List (Nat × String))
    (d : List ((Nat × String) × Row)) (e : List (Nat × Conv)) (u : Nat) (n : String) :
    schedHas ⟨a, b, c, d, e⟩ u n = memL (u, n) c := rfl

@[simp] theorem dbHas_mk (a : List (Nat × List (String × Task)))
    (b : List (Nat × List (String × Unit))) (c : List (Nat × String))
    (d : List ((Nat × String) × Row)) (e : List (Nat × Conv)) (u : Nat) (n : String) :
    dbHas ⟨a, b, c, d, e⟩ u n = (getA (u, n) d).isSome := rfl

@[simp] theorem convOf_mk (a : List (Nat × List (String × Task)))
    (b : List (Nat × List (String × Unit))) (c : List (Nat × String))
    (d : List ((Nat × String) × Row)) (e : List (Nat × Conv)) (u : Nat) :
    convOf ⟨a, b, c, d, e⟩ u = (getA u e).getD Conv.idle := rfl

@[simp] theorem regHas_mk (a : List (Nat × List (String × Task)))
    (b : List (Nat × List (String × Unit))) (c : List (Nat × String))
    (d : List ((Nat × String) × Row)) (e : List (Nat × Conv)) (u : Nat) (n : String) :
    regHas ⟨a, b, c, d, e⟩ u n = (getA n ((getA u b).getD [])).isSome :=
  regHas_eq _ _ _

/-- dbRow presence per key is unchanged by db_update_task_state. -/
theorem isSome_db_update_task_state (db : List ((Nat × String) × Row)) (u : Nat)
    (n : String) (st : String) (k : Nat × String) :
    (getA k (db_update_task_state db u n st)).isSome = (getA k db).isSome := by
  unfold db_update_task_state
  split
  · next r hr =>
    by_cases hk : k = (u, n)
    · subst hk
      simp [hr]
    · simp [getA_setA_ne _ _ _ _ (by exact fun h => hk h.symm)]
  · rfl

/-- dbRow presence per key is unchanged by db_update_task. -/
theorem isSome_db_update_task (db : List ((Nat × String) × Row)) (u : Nat)
    (n : String) (url sel st : String) (k : Nat × String) :
    (getA k (db_update_task db u n url sel st)).isSome = (getA k db).isSome := by
  unfold db_update_task
  split
  · next r hr =>
    by_cases hk : k = (u, n)
    · subst hk
      simp [hr]
    · simp [getA_setA_ne _ _ _ _ (by exact fun h => hk h.symm)]
  · rfl

theorem Inv.initial : Inv initState := by
  constructor <;> intro u n <;> simp [initState, schedHas, dbHas, dbRow, convOf,
    memTask, memTasks, memHasTask, regHas, getA, memL]

/-- Changing only the conversation entry of one user, to a state that is
none of the four shape-constrained flow states, preserves the invariant. -/
theorem Inv.set_conv (s : SysState) (u : Nat) (c : Conv) (h : Inv s)
    (hc : ∀ n : String, ¬ (c = Conv.addAwaitUrl n) ∧ ¬ (c = Conv.addAwaitSelector n) ∧
      ¬ (c = Conv.updAwaitUrl n) ∧ ¬ (c = Conv.updAwaitSelector n)) :
    Inv { s with conv := setA u c s.conv } := by
  refine ⟨h.sr_db, h.db_mem, h.complete_db, ?_, ?_, ?_, ?_⟩
  · intro u2 n2 hc2
    by_cases hu : u2 = u
    · subst hu
      simp only [convOf] at hc2
      rw [getA_setA_same] at hc2
      exact absurd hc2 (hc n2).1
    · exact h.conv_addUrl u2 n2
        (by simpa [convOf, getA_setA_ne u2 u _ _ (Ne.symm hu)] using hc2)
  · intro u2 n2 hc2
    by_cases hu : u2 = u
    · subst hu
      simp only [convOf] at hc2
      rw [getA_setA_same] at hc2
      exact absurd hc2 (hc n2).2.1
    · exact h.conv_addSel u2 n2
        (by simpa [convOf, getA_setA_ne u2 u _ _ (Ne.symm hu)] using hc2)
  · intro u2 n2 hc2
    by_cases hu : u2 = u
    · subst hu
      simp only [convOf] at hc2
      rw [getA_setA_same] at hc2
      exact absurd hc2 (hc n2).2.2.1
    · exact h.conv_updUrl u2 n2
        (by simpa [convOf, getA_setA_ne u2 u _ _ (Ne.symm hu)] using hc2)
  · intro u2 n2 hc2
    by_cases hu : u2 = u
    · subst hu
      simp only [convOf] at hc2
      rw [getA_setA_same] at hc2
      exact absurd hc2 (hc n2).2.2.2
    · exact h.conv_updSel u2 n2
        (by simpa [convOf, getA_setA_ne u2 u _ _ (Ne.symm hu)] using hc2)

theorem Inv.step_add (s : SysState) (u : Nat) (h : Inv s) : Inv (add_task s u).1 := by
  unfold add_task
  cases hcv : convOf s u
  case idle =>
    exact Inv.set_conv s u Conv.addAwaitName h
      (fun n => by refine ⟨?_, ?_, ?_, ?_⟩ <;> simp)
  all_goals exact h

theorem Inv.step_delete_entry (s : SysState) (u : Nat) (h : Inv s) :
    Inv (delete_task s u).1 := by
  unfold delete_task
  cases hcv : convOf s u
  case idle =>
    cases hud : getA u s.user_data with
    | none => exact h
    | some ud =>
      by_cases hE : ud.isEmpty
      · simp only [hE, if_true]
        exact h
      · simp only [hE, if_false, Bool.false_eq_true]
        exact Inv.set_conv s u Conv.delAwaitName h
          (fun n => by refine ⟨?_, ?_, ?_, ?_⟩ <;> simp)
  all_goals exact h

theorem Inv.step_update_entry (s : SysState) (u : Nat) (h : Inv s) :
    Inv (update_task s u).1 := by
  unfold update_task
  cases hcv : convOf s u
  case idle =>
    cases hud : getA u s.user_data with
    | none => exact h
    | some ud =>
      by_cases hE : ud.isEmpty
      · simp only [hE, if_true]
        exact h
      · simp only [hE, if_false, Bool.false_eq_true]
        exact Inv.set_conv s u Conv.updAwaitName h
          (fun n => by refine ⟨?_, ?_, ?_, ?_⟩ <;> simp)
  all_goals exact h

/-- Removing one in-memory task that has neither a stored row nor a
scheduled job, while ending the conversation of its owner, preserves the
invariant. -/
theorem Inv.del_task_set_idle (s : SysState) (u : Nat) (n : String)
    (ud : List (String × Task)) (h : Inv s)
    (hud : getA u s.user_data = some ud)
    (hdb : dbHas s u n = false) :
    Inv ⟨setA u (delA n ud) s.user_data, s.jobs, s.sched, s.db,
         setA u Conv.idle s.conv⟩ := by
  have hmemEq : ∀ (u2 : Nat) (n2 : String), ¬ (u2 = u ∧ n2 = n) →
      memTask (⟨setA u (delA n ud) s.user_data, s.jobs, s.sched, s.db,
        setA u Conv.idle s.conv⟩ : SysState) u2 n2 = memTask s u2 n2 := by
    intro u2 n2 hcond
    by_cases hu : u2 = u
    · subst hu
      have hn : ¬ n2 = n := fun hn => hcond ⟨rfl, hn⟩
      simp only [memTask, memTasks]
      rw [getA_setA_same, hud]
      simp only [Option.some_bind]
      exact getA_delA_ne n2 n ud (Ne.symm hn)
    · simp only [memTask, memTasks]
      rw [getA_setA_ne u2 u _ _ (Ne.symm hu)]
  have hmemN : memTask (⟨setA u (delA n ud) s.user_data, s.jobs, s.sched, s.db,
      setA u Conv.idle s.conv⟩ : SysState) u n = none := by
    simp only [memTask, memTasks]
    rw [getA_setA_same]
    simp
  refine ⟨h.sr_db, ?_, ?_, ?_, ?_, ?_, ?_⟩
  · intro v m hdb2
    unfold memHasTask
    by_cases hv : v = u
    · subst hv
      by_cases hm : m = n
      · subst hm
        have hdb3 : dbHas s v m = true := hdb2
        rw [hdb] at hdb3
        simp at hdb3
      · rw [hmemEq v m (fun hc => hm hc.2)]
        exact h.db_mem v m hdb2
    · rw [hmemEq v m (fun hc => hv hc.1)]
      exact h.db_mem v m hdb2
  · intro v m t2 hmm hcomp
    by_cases hv : v = u
    · subst hv
      by_cases hm : m = n
      · subst hm
        rw [hmemN] at hmm
        cases hmm
      · rw [hmemEq v m (fun hc => hm hc.2)] at hmm
        exact h.complete_db v m t2 hmm hcomp
    · rw [hmemEq v m (fun hc => hv hc.1)] at hmm
      exact h.complete_db v m t2 hmm hcomp
  · intro v m hc2
    by_cases hv : v = u
    · subst hv
      simp only [convOf_mk] at hc2
      rw [getA_setA_same] at hc2
      simp at hc2
    · have hc3 : convOf s v = Conv.addAwaitUrl m := by
        simpa [convOf, getA_setA_ne v u _ _ (Ne.symm hv)] using hc2
      obtain ⟨hd2, hsh⟩ := h.conv_addUrl v m hc3
      refine ⟨hd2, ?_⟩
      intro t2 hm2
      rw [hmemEq v m (fun hc => hv hc.1)] at hm2
      exact hsh t2 hm2
  · intro v m hc2
    by_cases hv : v = u
    · subst hv
      simp only [convOf_mk] at hc2
      rw [getA_setA_same] at hc2
      simp at hc2
    · exact h.conv_addSel v m
        (by simpa [convOf, getA_setA_ne v u _ _ (Ne.symm hv)] using hc2)
  · intro v m hc2
    by_cases hv : v = u
    · subst hv
      simp only [convOf_mk] at hc2
      rw [getA_setA_same] at hc2
      simp at hc2
    · have hc3 : convOf s v = Conv.updAwaitUrl m := by
        simpa [convOf, getA_setA_ne v u _ _ (Ne.symm hv)] using hc2
      obtain ⟨t0, hm0, hu0⟩ := h.conv_updUrl v m hc3
      exact ⟨t0, by rw [hmemEq v m (fun hc => hv hc.1)]; exact hm0, hu0⟩
  · intro v m hc2
    by_cases hv : v = u
    · subst hv
      simp only [convOf_mk] at hc2
      rw [getA_setA_same] at hc2
      simp at hc2
    · have hc3 : convOf s v = Conv.updAwaitSelector m := by
        simpa [convOf, getA_setA_ne v u _ _ (Ne.symm hv)] using hc2
      obtain ⟨t0, hm0, hu0, hs0⟩ := h.conv_updSel v m hc3
      exact ⟨t0, by rw [hmemEq v m (fun hc => hv hc.1)]; exact hm0, hu0, hs0⟩

theorem idle_unconstrained : ∀ n : String, ¬ (Conv.idle = Conv.addAwaitUrl n) ∧
    ¬ (Conv.idle = Conv.addAwaitSelector n) ∧
    ¬ (Conv.idle = Conv.updAwaitUrl n) ∧
    ¬ (Conv.idle = Conv.updAwaitSelector n) :=
  fun n => by refine ⟨?_, ?_, ?_, ?_⟩ <;> simp

theorem Inv.step_cancel (s : SysState) (u : Nat) (h : Inv s) : Inv (cancel s u).1 := by
  cases hcv : convOf s u
  case idle =>
    have hres : (cancel s u).1 = s := by simp only [cancel, hcv]
    rw [hres]
    exact h
  case addAwaitName =>
    have hres : (cancel s u).1 = { s with conv := setA u Conv.idle s.conv } := by
      simp only [cancel, hcv]
    rw [hres]
    exact Inv.set_conv s u Conv.idle h idle_unconstrained
  case delAwaitName =>
    have hres : (cancel s u).1 = { s with conv := setA u Conv.idle s.conv } := by
      simp only [cancel, hcv]
    rw [hres]
    exact Inv.set_conv s u Conv.idle h idle_unconstrained
  case updAwaitName =>
    have hres : (cancel s u).1 = { s with conv := setA u Conv.idle s.conv } := by
      simp only [cancel, hcv]
    rw [hres]
    exact Inv.set_conv s u Conv.idle h idle_unconstrained
  case updAwaitUrl n =>
    have hres : (cancel s u).1 = { s with conv := setA u Conv.idle s.conv } := by
      simp only [cancel, hcv]
    rw [hres]
    exact Inv.set_conv s u Conv.idle h idle_unconstrained
  case updAwaitSelector n =>
    have hres : (cancel s u).1 = { s with conv := setA u Conv.idle s.conv } := by
      simp only [cancel, hcv]
    rw [hres]
    exact Inv.set_conv s u Conv.idle h idle_unconstrained
  case addAwaitUrl n =>
    obtain ⟨hd, hsh⟩ := h.conv_addUrl u n hcv
    cases hud : getA u s.user_data with
    | none =>
      have hres : (cancel s u).1 = { s with conv := setA u Conv.idle s.conv } := by
        simp only [cancel, hcv, hud]
      rw [hres]
      exact Inv.set_conv s u Conv.idle h idle_unconstrained
    | some ud =>
      cases hun : getA n ud with
      | none =>
        have hres : (cancel s u).1 = { s with conv := setA u Conv.idle s.conv } := by
          simp only [cancel, hcv, hud, hun]
        rw [hres]
        exact Inv.set_conv s u Conv.idle h idle_unconstrained
      | some t =>
        by_cases ht : t = Task.emptyTask
        · have hres : (cancel s u).1 =
              ⟨setA u (delA n ud) s.user_data, s.jobs, s.sched, s.db,
               setA u Conv.idle s.conv⟩ := by
            simp only [cancel, hcv, hud, hun, if_pos ht]
          rw [hres]
          exact Inv.del_task_set_idle s u n ud h hud hd
        · have hres : (cancel s u).1 = { s with conv := setA u Conv.idle s.conv } := by
            simp only [cancel, hcv, hud, hun, if_neg ht]
          rw [hres]
          exact Inv.set_conv s u Conv.idle h idle_unconstrained
  case addAwaitSelector n =>
    have hd := h.conv_addSel u n hcv
    cases hud : getA u s.user_data with
    | none =>
      have hres : (cancel s u).1 = { s with conv := setA u Conv.idle s.conv } := by
        simp only [cancel, hcv, hud]
      rw [hres]
      exact Inv.set_conv s u Conv.idle h idle_unconstrained
    | some ud =>
      cases hun : getA n ud with
      | none =>
        have hres : (cancel s u).1 = { s with conv := setA u Conv.idle s.conv } := by
          simp only [cancel, hcv, hud, hun]
        rw [hres]
        exact Inv.set_conv s u Conv.idle h idle_unconstrained
      | some t =>
        by_cases ht : t = Task.emptyTask
        · have hres : (cancel s u).1 =
              ⟨setA u (delA n ud) s.user_data, s.jobs, s.sched, s.db,
               setA u Conv.idle s.conv⟩ := by
            simp only [cancel, hcv, hud, hun, if_pos ht]
          rw [hres]
          exact Inv.del_task_set_idle s u n ud h hud hd
        · have hres : (cancel s u).1 = { s with conv := setA u Conv.idle s.conv } := by
            simp only [cancel, hcv, hud, hun, if_neg ht]
          rw [hres]
          exact Inv.set_conv s u Conv.idle h idle_unconstrained

theorem Inv.step_fire (s : SysState) (u : Nat) (n : String) (fo : FetchOutcome)
    (sendOk : Bool) (h : Inv s) (hg : schedHas s u n = true) :
    Inv (check_website s u n fo sendOk).1 := by
  cases hmem : memTask s u n with
  | none =>
    have hres : (check_website s u n fo sendOk).1 =
        { s with sched := remL (u, n) s.sched } := by
      simp only [check_website, hmem]
    rw [hres]
    have hsr : ∀ (v : Nat) (m : String),
        memL (v, m) (remL (u, n) s.sched) = true → memL (v, m) s.sched = true := by
      intro v m hs2
      by_cases hvm : ((u, n) : Nat × String) = (v, m)
      · rw [← hvm, memL_remL_same] at hs2
        exact Bool.noConfusion hs2
      · rw [memL_remL_ne (v, m) (u, n) s.sched hvm] at hs2
        exact hs2
    exact ⟨fun v m hs hr => h.sr_db v m (hsr v m hs) hr, h.db_mem, h.complete_db,
      h.conv_addUrl, h.conv_addSel, h.conv_updUrl, h.conv_updSel⟩
  | some t =>
  cases fo with
  | notFound =>
    have hres : (check_website s u n FetchOutcome.notFound sendOk).1 = s := by
      simp only [check_website, hmem]
    rw [hres]
    exact h
  | fetchErr =>
    have hres : (check_website s u n FetchOutcome.fetchErr sendOk).1 = s := by
      simp only [check_website, hmem]
    rw [hres]
    exact h
  | ok cs =>
  by_cases hch : t.initial_state = some cs
  · have hres : (check_website s u n (FetchOutcome.ok cs) sendOk).1 = s := by
      simp only [check_website, hmem, if_pos hch]
    rw [hres]
    exact h
  · cases sendOk with
    | false =>
      have hres : (check_website s u n (FetchOutcome.ok cs) false).1 = s := by
        simp only [check_website, hmem, if_neg hch]
        simp
      rw [hres]
      exact h
    | true =>
      obtain ⟨ud0, hud1, hud2⟩ :
          ∃ ud0, getA u s.user_data = some ud0 ∧ getA n ud0 = some t := by
        cases hx : getA u s.user_data with
        | none => simp [memTask, memTasks, hx] at hmem
        | some ud0 => exact ⟨ud0, rfl, by simpa [memTask, memTasks, hx] using hmem⟩
      have hres : (check_website s u n (FetchOutcome.ok cs) true).1 =
          ⟨setA u (setA n { t with initial_state := some cs } ud0) s.user_data,
           s.jobs, s.sched, db_update_task_state s.db u n cs, s.conv⟩ := by
        simp only [check_website, hmem, if_neg hch, hud1, Option.getD_some]
        simp
      rw [hres]
      have hTm : ∀ (v : Nat) (m : String), ¬ (v = u ∧ m = n) →
          memTask (⟨setA u (setA n { t with initial_state := some cs } ud0)
              s.user_data, s.jobs, s.sched, db_update_task_state s.db u n cs,
              s.conv⟩ : SysState) v m = memTask s v m := by
        intro v m hcond
        by_cases hv : v = u
        · subst hv
          have hm : ¬ m = n := fun hmn => hcond ⟨rfl, hmn⟩
          simp only [memTask, memTasks]
          rw [getA_setA_same, hud1]
          simp only [Option.some_bind]
          exact getA_setA_ne m n _ ud0 (Ne.symm hm)
        · simp only [memTask, memTasks]
          rw [getA_setA_ne v u _ _ (Ne.symm hv)]
      have hTn : memTask (⟨setA u (setA n { t with initial_state := some cs } ud0)
          s.user_data, s.jobs, s.sched, db_update_task_state s.db u n cs,
          s.conv⟩ : SysState) u n = some { t with initial_state := some cs } := by
        simp only [memTask, memTasks]
        rw [getA_setA_same]
        simp
      have hDb : ∀ (v : Nat) (m : String),
          dbHas (⟨setA u (setA n { t with initial_state := some cs } ud0)
            s.user_data, s.jobs, s.sched, db_update_task_state s.db u n cs,
            s.conv⟩ : SysState) v m = dbHas s v m := by
        intro v m
        unfold dbHas dbRow
        exact isSome_db_update_task_state s.db u n cs (v, m)
      refine ⟨?_, ?_, ?_, ?_, ?_, ?_, ?_⟩
      · intro v m hs hr
        rw [hDb v m]
        exact h.sr_db v m hs hr
      · intro v m hdb2
        rw [hDb v m] at hdb2
        unfold memHasTask
        by_cases hv : v = u
        · subst hv
          by_cases hm : m = n
          · subst hm
            rw [hTn]
            rfl
          · rw [hTm v m (fun hc => hm hc.2)]
            exact h.db_mem v m hdb2
        · rw [hTm v m (fun hc => hv hc.1)]
          exact h.db_mem v m hdb2
      · intro v m t3 hm3 hcomp
        rw [hDb v m]
        by_cases hv : v = u
        · subst hv
          by_cases hm : m = n
          · subst hm
            rw [hTn] at hm3
            cases hm3
            exact h.complete_db v m t hmem (by simpa [Task.complete] using hcomp)
          · rw [hTm v m (fun hc => hm hc.2)] at hm3
            exact h.complete_db v m t3 hm3 hcomp
        · rw [hTm v m (fun hc => hv hc.1)] at hm3
          exact h.complete_db v m t3 hm3 hcomp
      · intro v m hc2
        have hc3 : convOf s v = Conv.addAwaitUrl m := hc2
        obtain ⟨hd2, hsh⟩ := h.conv_addUrl v m hc3
        refine ⟨by rw [hDb v m]; exact hd2, ?_⟩
        intro t4 hm4
        by_cases hv : v = u
        · subst hv
          by_cases hm : m = n
          · subst hm
            rw [hTn] at hm4
            cases hm4
            simpa using hsh t hmem
          · rw [hTm v m (fun hc => hm hc.2)] at hm4
            exact hsh t4 hm4
        · rw [hTm v m (fun hc => hv hc.1)] at hm4
          exact hsh t4 hm4
      · intro v m hc2
        have hc3 : convOf s v = Conv.addAwaitSelector m := hc2
        have hd2 := h.conv_addSel v m hc3
        rw [hDb v m]
        exact hd2
      · intro v m hc2
        have hc3 : convOf s v = Conv.updAwaitUrl m := hc2
        obtain ⟨t0, hm0, hu0⟩ := h.conv_updUrl v m hc3
        by_cases hv : v = u
        · subst hv
          by_cases hm : m = n
          · subst hm
            rw [hmem] at hm0
            cases hm0
            exact ⟨{ t with initial_state := some cs }, hTn, hu0⟩
          · exact ⟨t0, by rw [hTm v m (fun hc => hm hc.2)]; exact hm0, hu0⟩
        · exact ⟨t0, by rw [hTm v m (fun hc => hv hc.1)]; exact hm0, hu0⟩
      · intro v m hc2
        have hc3 : convOf s v = Conv.updAwaitSelector m := hc2
        obtain ⟨t0, hm0, hu0, hs0⟩ := h.conv_updSel v m hc3
        by_cases hv : v = u
        · subst hv
          by_cases hm : m = n
          · subst hm
            rw [hmem] at hm0
            cases hm0
            exact ⟨{ t with initial_state := some cs }, hTn, hu0, hs0⟩
          · exact ⟨t0, by rw [hTm v m (fun hc => hm hc.2)]; exact hm0, hu0, hs0⟩
        · exact ⟨t0, by rw [hTm v m (fun hc => hv hc.1)]; exact hm0, hu0, hs0⟩

/-- Two states with the same observable content (task lookups, registry,
schedule, rows, conversations) satisfy the invariant together. -/
theorem Inv.congr (s s2 : SysState) (h : Inv s)
    (hM : ∀ (v : Nat) (m : String), memTask s2 v m = memTask s v m)
    (hR : ∀ (v : Nat) (m : String), regHas s2 v m = regHas s v m)
    (hS : ∀ (v : Nat) (m : String), schedHas s2 v m = schedHas s v m)
    (hD : ∀ (v : Nat) (m : String), dbHas s2 v m = dbHas s v m)
    (hC : ∀ v : Nat, convOf s2 v = convOf s v) : Inv s2 := by
  refine ⟨?_, ?_, ?_, ?_, ?_, ?_, ?_⟩
  · intro v m hs hr
    rw [hD]
    exact h.sr_db v m (by rw [hS] at hs; exact hs) (by rw [hR] at hr; exact hr)
  · intro v m hdb2
    unfold memHasTask
    rw [hM]
    exact h.db_mem v m (by rw [hD] at hdb2; exact hdb2)
  · intro v m t3 hm3 hcomp
    rw [hD]
    rw [hM] at hm3
    exact h.complete_db v m t3 hm3 hcomp
  · intro v m hc2
    rw [hC] at hc2
    obtain ⟨hd2, hsh⟩ := h.conv_addUrl v m hc2
    refine ⟨by rw [hD]; exact hd2, ?_⟩
    intro t4 hm4
    rw [hM] at hm4
    exact hsh t4 hm4
  · intro v m hc2
    rw [hC] at hc2
    have hd2 := h.conv_addSel v m hc2
    rw [hD]
    exact hd2
  · intro v m hc2
    rw [hC] at hc2
    obtain ⟨t0, hm0, hu0⟩ := h.conv_updUrl v m hc2
    exact ⟨t0, by rw [hM]; exact hm0, hu0⟩
  · intro v m hc2
    rw [hC] at hc2
    obtain ⟨t0, hm0, hu0, hs0⟩ := h.conv_updSel v m hc2
    exact ⟨t0, by rw [hM]; exact hm0, hu0, hs0⟩

theorem Inv.step_name (s : SysState) (u : Nat) (text : String) (h : Inv s) :
    Inv (receive_task_name s u text).1 := by
  cases hcv : convOf s u
  case addAwaitName =>
    have hM0 : ∀ (v : Nat) (m : String),
        memTask (⟨setA u ((getA u s.user_data).getD []) s.user_data,
          setA u ((getA u s.jobs).getD []) s.jobs, s.sched, s.db, s.conv⟩ : SysState)
          v m = memTask s v m := by
      intro v m
      by_cases hv : v = u
      · subst hv
        cases hud : getA v s.user_data with
        | none => simp [memTask, memTasks, hud]
        | some ud0 => simp [memTask, memTasks, hud]
      · simp [memTask, memTasks, getA_setA_ne v u _ _ (Ne.symm hv)]
    have hR0 : ∀ (v : Nat) (m : String),
        regHas (⟨setA u ((getA u s.user_data).getD []) s.user_data,
          setA u ((getA u s.jobs).getD []) s.jobs, s.sched, s.db, s.conv⟩ : SysState)
          v m = regHas s v m := by
      intro v m
      rw [regHas_eq, regHas_eq]
      by_cases hv : v = u
      · subst hv
        cases hjb : getA v s.jobs with
        | none => simp [hjb]
        | some jb0 => simp [hjb]
      · rw [getA_setA_ne v u _ _ (Ne.symm hv)]
    by_cases hdup : (getA text ((getA u s.user_data).getD [])).isSome
    · have hres : (receive_task_name s u text).1 =
          ⟨setA u ((getA u s.user_data).getD []) s.user_data,
           setA u ((getA u s.jobs).getD []) s.jobs, s.sched, s.db, s.conv⟩ := by
        simp only [receive_task_name, hcv, hdup, if_true]
      rw [hres]
      exact Inv.congr s _ h hM0 hR0 (fun v m => rfl) (fun v m => rfl) (fun v => rfl)
    · have hDup : memTask s u text = none := by
        cases hud : getA u s.user_data with
        | none => simp [memTask, memTasks, hud]
        | some ud0 =>
          rw [hud] at hdup
          simp only [Option.getD_some] at hdup
          simp only [memTask, memTasks, hud, Option.some_bind]
          exact Option.not_isSome_iff_eq_none.mp hdup
      have hres : (receive_task_name s u text).1 =
          ⟨setA u (setA text Task.emptyTask ((getA u s.user_data).getD []))
             s.user_data,
           setA u ((getA u s.jobs).getD []) s.jobs, s.sched, s.db,
           setA u (Conv.addAwaitUrl text) s.conv⟩ := by
        simp only [receive_task_name, hcv, hdup, if_false]
        simp [setA_setA_same]
      rw [hres]
      have hdbF : dbHas s u text = false := by
        rcases Bool.eq_false_or_eq_true (dbHas s u text) with hb | hb
        · exact absurd (h.db_mem u text hb) (by simp [memHasTask, hDup])
        · exact hb
      have hR1 : ∀ (v : Nat) (m : String),
          regHas (⟨setA u (setA text Task.emptyTask ((getA u s.user_data).getD []))
            s.user_data, setA u ((getA u s.jobs).getD []) s.jobs, s.sched, s.db,
            setA u (Conv.addAwaitUrl text) s.conv⟩ : SysState) v m
            = regHas s v m := by
        intro v m
        rw [regHas_eq, regHas_eq]
        by_cases hv : v = u
        · subst hv
          cases hjb : getA v s.jobs with
          | none => simp [hjb]
          | some jb0 => simp [hjb]
        · rw [getA_setA_ne v u _ _ (Ne.symm hv)]
      have hTm : ∀ (v : Nat) (m : String), ¬ (v = u ∧ m = text) →
          memTask (⟨setA u (setA text Task.emptyTask ((getA u s.user_data).getD []))
            s.user_data, setA u ((getA u s.jobs).getD []) s.jobs, s.sched, s.db,
            setA u (Conv.addAwaitUrl text) s.conv⟩ : SysState) v m
            = memTask s v m := by
        intro v m hcond
        by_cases hv : v = u
        · subst hv
          have hm : ¬ m = text := fun hmt => hcond ⟨rfl, hmt⟩
          cases hud : getA v s.user_data with
          | none =>
            simp [memTask, memTasks, hud, getA_setA_ne m text _ _ (Ne.symm hm)]
          | some ud0 =>
            simp [memTask, memTasks, hud, getA_setA_ne m text _ _ (Ne.symm hm)]
        · simp [memTask, memTasks, getA_setA_ne v u _ _ (Ne.symm hv)]
      have hTn : memTask (⟨setA u (setA text Task.emptyTask
          ((getA u s.user_data).getD [])) s.user_data,
          setA u ((getA u s.jobs).getD []) s.jobs, s.sched, s.db,
          setA u (Conv.addAwaitUrl text) s.conv⟩ : SysState) u text
          = some Task.emptyTask := by
        simp [memTask, memTasks]
      refine ⟨?_, ?_, ?_, ?_, ?_, ?_, ?_⟩
      · intro v m hs hr
        exact h.sr_db v m hs (by rw [hR1 v m] at hr; exact hr)
      · intro v m hdb2
        unfold memHasTask
        by_cases hv : v = u
        · subst hv
          by_cases hm : m = text
          · subst hm
            rw [hTn]
            rfl
          · rw [hTm v m (fun hc => hm hc.2)]
            exact h.db_mem v m hdb2
        · rw [hTm v m (fun hc => hv hc.1)]
          exact h.db_mem v m hdb2
      · intro v m t3 hm3 hcomp
        by_cases hv : v = u
        · subst hv
          by_cases hm : m = text
          · subst hm
            rw [hTn] at hm3
            cases hm3
            simp [Task.complete, Task.emptyTask] at hcomp
          · rw [hTm v m (fun hc => hm hc.2)] at hm3
            exact h.complete_db v m t3 hm3 hcomp
        · rw [hTm v m (fun hc => hv hc.1)] at hm3
          exact h.complete_db v m t3 hm3 hcomp
      · intro v m hc2
        by_cases hv : v = u
        · subst hv
          simp only [convOf_mk] at hc2
          rw [getA_setA_same] at hc2
          simp only [Option.getD_some, Conv.addAwaitUrl.injEq] at hc2
          subst hc2
          refine ⟨hdbF, ?_⟩
          intro t4 hm4
          rw [hTn] at hm4
          cases hm4
          rfl
        · have hc3 : convOf s v = Conv.addAwaitUrl m := by
            simpa [convOf, getA_setA_ne v u _ _ (Ne.symm hv)] using hc2
          obtain ⟨hd2, hsh⟩ := h.conv_addUrl v m hc3
          refine ⟨hd2, ?_⟩
          intro t4 hm4
          rw [hTm v m (fun hc => hv hc.1)] at hm4
          exact hsh t4 hm4
      · intro v m hc2
        by_cases hv : v = u
        · subst hv
          simp only [convOf_mk] at hc2
          rw [getA_setA_same] at hc2
          simp at hc2
        · exact h.conv_addSel v m
            (by simpa [convOf, getA_setA_ne v u _ _ (Ne.symm hv)] using hc2)
      · intro v m hc2
        by_cases hv : v = u
        · subst hv
          simp only [convOf_mk] at hc2
          rw [getA_setA_same] at hc2
          simp at hc2
        · have hc3 : convOf s v = Conv.updAwaitUrl m := by
            simpa [convOf, getA_setA_ne v u _ _ (Ne.symm hv)] using hc2
          obtain ⟨t0, hm0, hu0⟩ := h.conv_updUrl v m hc3
          exact ⟨t0, by rw [hTm v m (fun hc => hv hc.1)]; exact hm0, hu0⟩
      · intro v m hc2
        by_cases hv : v = u
        · subst hv
          simp only [convOf_mk] at hc2
          rw [getA_setA_same] at hc2
          simp at hc2
        · have hc3 : convOf s v = Conv.updAwaitSelector m := by
            simpa [convOf, getA_setA_ne v u _ _ (Ne.symm hv)] using hc2
          obtain ⟨t0, hm0, hu0, hs0⟩ := h.conv_updSel v m hc3
          exact ⟨t0, by rw [hTm v m (fun hc => hv hc.1)]; exact hm0, hu0, hs0⟩
  all_goals
    have hres : (receive_task_name s u text).1 = s := by
      simp only [receive_task_name, hcv]
    rw [hres]
    exact h

/-- Ending the conversation of user u while rewriting the task, registry,
schedule and row of the single key (u, n) arbitrarily - as the success and
failure endings of the create and update flows do - preserves the invariant
provided the task at the key exists afterwards, a scheduled job at the key
is registered and stored, and a complete task at the key is stored. -/
theorem Inv.refit (s s2 : SysState) (u : Nat) (n : String) (t3 : Task) (h : Inv s)
    (hM : ∀ (v : Nat) (m : String), ¬ (v = u ∧ m = n) →
      memTask s2 v m = memTask s v m)
    (hMn : memTask s2 u n = some t3)
    (hR : ∀ (v : Nat) (m : String), ¬ (v = u ∧ m = n) →
      regHas s2 v m = regHas s v m)
    (hS : ∀ (v : Nat) (m : String), ¬ (v = u ∧ m = n) →
      schedHas s2 v m = schedHas s v m)
    (hD : ∀ (v : Nat) (m : String), ¬ (v = u ∧ m = n) →
      dbHas s2 v m = dbHas s v m)
    (hC : ∀ v : Nat, ¬ v = u → convOf s2 v = convOf s v)
    (hCu : convOf s2 u = Conv.idle)
    (hSn : schedHas s2 u n = true → regHas s2 u n = true → dbHas s2 u n = true)
    (hComp : Task.complete t3 = true → dbHas s2 u n = true) : Inv s2 := by
  have hsplit : ∀ (v : Nat) (m : String), (v = u ∧ m = n) ∨ ¬ (v = u ∧ m = n) :=
    fun v m => Classical.em _
  refine ⟨?_, ?_, ?_, ?_, ?_, ?_, ?_⟩
  · intro v m hs hr
    rcases hsplit v m with ⟨rfl, rfl⟩ | hvm
    · exact hSn hs hr
    · rw [hD v m hvm]
      exact h.sr_db v m (by rw [hS v m hvm] at hs; exact hs)
        (by rw [hR v m hvm] at hr; exact hr)
  · intro v m hdb2
    rcases hsplit v m with ⟨rfl, rfl⟩ | hvm
    · simp [memHasTask, hMn]
    · unfold memHasTask
      rw [hM v m hvm]
      exact h.db_mem v m (by rw [hD v m hvm] at hdb2; exact hdb2)
  · intro v m t4 hm4 hcomp
    rcases hsplit v m with ⟨rfl, rfl⟩ | hvm
    · rw [hMn] at hm4
      cases hm4
      exact hComp hcomp
    · rw [hD v m hvm]
      rw [hM v m hvm] at hm4
      exact h.complete_db v m t4 hm4 hcomp
  · intro v m hc2
    by_cases hv : v = u
    · subst hv
      rw [hCu] at hc2
      cases hc2
    · rw [hC v hv] at hc2
      obtain ⟨hd2, hsh⟩ := h.conv_addUrl v m hc2
      have hvm : ∀ m2 : String, ¬ (v = u ∧ m2 = n) := fun m2 hc => hv hc.1
      refine ⟨by rw [hD v m (hvm m)]; exact hd2, ?_⟩
      intro t4 hm4
      rw [hM v m (hvm m)] at hm4
      exact hsh t4 hm4
  · intro v m hc2
    by_cases hv : v = u
    · subst hv
      rw [hCu] at hc2
      cases hc2
    · rw [hC v hv] at hc2
      have hd2 := h.conv_addSel v m hc2
      have hvm : ¬ (v = u ∧ m = n) := fun hc => hv hc.1
      rw [hD v m hvm]
      exact hd2
  · intro v m hc2
    by_cases hv : v = u
    · subst hv
      rw [hCu] at hc2
      cases hc2
    · rw [hC v hv] at hc2
      obtain ⟨t0, hm0, hu0⟩ := h.conv_updUrl v m hc2
      have hvm : ¬ (v = u ∧ m = n) := fun hc => hv hc.1
      exact ⟨t0, by rw [hM v m hvm]; exact hm0, hu0⟩
  · intro v m hc2
    by_cases hv : v = u
    · subst hv
      rw [hCu] at hc2
      cases hc2
    · rw [hC v hv] at hc2
      obtain ⟨t0, hm0, hu0, hs0⟩ := h.conv_updSel v m hc2
      have hvm : ¬ (v = u ∧ m = n) := fun hc => hv hc.1
      exact ⟨t0, by rw [hM v m hvm]; exact hm0, hu0, hs0⟩

/-- Removing the in-memory task at one key that has neither a stored row
nor a scheduled job, ending the conversation of its owner and leaving all
other observables alone, preserves the invariant (covers both shapes of
the create-failure cleanup). -/
theorem Inv.remove_refit (s s2 : SysState) (u : Nat) (n : String) (h : Inv s)
    (hM : ∀ (v : Nat) (m : String), ¬ (v = u ∧ m = n) →
      memTask s2 v m = memTask s v m)
    (hMn : memTask s2 u n = none)
    (hR : ∀ (v : Nat) (m : String), regHas s2 v m = regHas s v m)
    (hS : ∀ (v : Nat) (m : String), schedHas s2 v m = schedHas s v m)
    (hD : ∀ (v : Nat) (m : String), dbHas s2 v m = dbHas s v m)
    (hC : ∀ v : Nat, ¬ v = u → convOf s2 v = convOf s v)
    (hCu : convOf s2 u = Conv.idle)
    (hdbF : dbHas s u n = false) : Inv s2 := by
  have hsplit : ∀ (v : Nat) (m : String), (v = u ∧ m = n) ∨ ¬ (v = u ∧ m = n) :=
    fun v m => Classical.em _
  refine ⟨?_, ?_, ?_, ?_, ?_, ?_, ?_⟩
  · intro v m hs hr
    rw [hD]
    exact h.sr_db v m (by rw [hS] at hs; exact hs) (by rw [hR] at hr; exact hr)
  · intro v m hdb2
    rcases hsplit v m with ⟨rfl, rfl⟩ | hvm
    · rw [hD] at hdb2
      rw [hdbF] at hdb2
      cases hdb2
    · unfold memHasTask
      rw [hM v m hvm]
      exact h.db_mem v m (by rw [hD] at hdb2; exact hdb2)
  · intro v m t4 hm4 hcomp
    rcases hsplit v m with ⟨rfl, rfl⟩ | hvm
    · rw [hMn] at hm4
      cases hm4
    · rw [hD]
      rw [hM v m hvm] at hm4
      exact h.complete_db v m t4 hm4 hcomp
  · intro v m hc2
    by_cases hv : v = u
    · subst hv
      rw [hCu] at hc2
      cases hc2
    · rw [hC v hv] at hc2
      obtain ⟨hd2, hsh⟩ := h.conv_addUrl v m hc2
      refine ⟨by rw [hD]; exact hd2, ?_⟩
      intro t4 hm4
      rw [hM v m (fun hc => hv hc.1)] at hm4
      exact hsh t4 hm4
  · intro v m hc2
    by_cases hv : v = u
    · subst hv
      rw [hCu] at hc2
      cases hc2
    · rw [hC v hv] at hc2
      have hd2 := h.conv_addSel v m hc2
      rw [hD]
      exact hd2
  · intro v m hc2
    by_cases hv : v = u
    · subst hv
      rw [hCu] at hc2
      cases hc2
    · rw [hC v hv] at hc2
      obtain ⟨t0, hm0, hu0⟩ := h.conv_updUrl v m hc2
      exact ⟨t0, by rw [hM v m (fun hc => hv hc.1)]; exact hm0, hu0⟩
  · intro v m hc2
    by_cases hv : v = u
    · subst hv
      rw [hCu] at hc2
      cases hc2
    · rw [hC v hv] at hc2
      obtain ⟨t0, hm0, hu0, hs0⟩ := h.conv_updSel v m hc2
      exact ⟨t0, by rw [hM v m (fun hc => hv hc.1)]; exact hm0, hu0, hs0⟩

/-- Removing task, job (registry and schedule) and row of one key together,
ending the owner conversation, preserves the invariant (the delete flow). -/
theorem Inv.delete_refit (s s2 : SysState) (u : Nat) (n : String) (h : Inv s)
    (hM : ∀ (v : Nat) (m : String), ¬ (v = u ∧ m = n) →
      memTask s2 v m = memTask s v m)
    (hMn : memTask s2 u n = none)
    (hR : ∀ (v : Nat) (m : String), ¬ (v = u ∧ m = n) →
      regHas s2 v m = regHas s v m)
    (hS : ∀ (v : Nat) (m : String), ¬ (v = u ∧ m = n) →
      schedHas s2 v m = schedHas s v m)
    (hRn : regHas s2 u n = false)
    (hD : ∀ (v : Nat) (m : String), ¬ (v = u ∧ m = n) →
      dbHas s2 v m = dbHas s v m)
    (hDn : dbHas s2 u n = false)
    (hC : ∀ v : Nat, ¬ v = u → convOf s2 v = convOf s v)
    (hCu : convOf s2 u = Conv.idle) : Inv s2 := by
  have hsplit : ∀ (v : Nat) (m : String), (v = u ∧ m = n) ∨ ¬ (v = u ∧ m = n) :=
    fun v m => Classical.em _
  refine ⟨?_, ?_, ?_, ?_, ?_, ?_, ?_⟩
  · intro v m hs hr
    rcases hsplit v m with ⟨rfl, rfl⟩ | hvm
    · rw [hRn] at hr
      cases hr
    · rw [hD v m hvm]
      exact h.sr_db v m (by rw [hS v m hvm] at hs; exact hs)
        (by rw [hR v m hvm] at hr; exact hr)
  · intro v m hdb2
    rcases hsplit v m with ⟨rfl, rfl⟩ | hvm
    · rw [hDn] at hdb2
      cases hdb2
    · unfold memHasTask
      rw [hM v m hvm]
      exact h.db_mem v m (by rw [hD v m hvm] at hdb2; exact hdb2)
  · intro v m t4 hm4 hcomp
    rcases hsplit v m with ⟨rfl, rfl⟩ | hvm
    · rw [hMn] at hm4
      cases hm4
    · rw [hD v m hvm]
      rw [hM v m hvm] at hm4
      exact h.complete_db v m t4 hm4 hcomp
  · intro v m hc2
    by_cases hv : v = u
    · subst hv
      rw [hCu] at hc2
      cases hc2
    · rw [hC v hv] at hc2
      obtain ⟨hd2, hsh⟩ := h.conv_addUrl v m hc2
      have hvm : ∀ m2 : String, ¬ (v = u ∧ m2 = n) := fun m2 hc => hv hc.1
      refine ⟨by rw [hD v m (hvm m)]; exact hd2, ?_⟩
      intro t4 hm4
      rw [hM v m (hvm m)] at hm4
      exact hsh t4 hm4
  · intro v m hc2
    by_cases hv : v = u
    · subst hv
      rw [hCu] at hc2
      cases hc2
    · rw [hC v hv] at hc2
      have hd2 := h.conv_addSel v m hc2
      have hvm : ¬ (v = u ∧ m = n) := fun hc => hv hc.1
      rw [hD v m hvm]
      exact hd2
  · intro v m hc2
    by_cases hv : v = u
    · subst hv
      rw [hCu] at hc2
      cases hc2
    · rw [hC v hv] at hc2
      obtain ⟨t0, hm0, hu0⟩ := h.conv_updUrl v m hc2
      exact ⟨t0, by rw [hM v m (fun hc => hv hc.1)]; exact hm0, hu0⟩
  · intro v m hc2
    by_cases hv : v = u
    · subst hv
      rw [hCu] at hc2
      cases hc2
    · rw [hC v hv] at hc2
      obtain ⟨t0, hm0, hu0, hs0⟩ := h.conv_updSel v m hc2
      exact ⟨t0, by rw [hM v m (fun hc => hv hc.1)]; exact hm0, hu0, hs0⟩

/-- Rewriting the value of one existing in-memory task and moving its
owner to a new conversation state - the mid-flow shape of the url and
selector steps - preserves the invariant, given the completeness obligation
for the new value and the conversation obligations for the new state. -/
theorem Inv.set_task (s : SysState) (u : Nat) (n : String)
    (ud : List (String × Task)) (t2 : Task) (c : Conv) (h : Inv s)
    (hud : getA u s.user_data = some ud)
    (hcomp2 : Task.complete t2 = true → dbHas s u n = true)
    (hc_addUrl : ∀ m : String, c = Conv.addAwaitUrl m →
        dbHas s u m = false ∧
        ∀ t4, (if m = n then some t2 else memTask s u m) = some t4 →
          t4.selector = none)
    (hc_addSel : ∀ m : String, c = Conv.addAwaitSelector m →
        dbHas s u m = false)
    (hc_updUrl : ∀ m : String, c = Conv.updAwaitUrl m →
        ∃ t4, (if m = n then some t2 else memTask s u m) = some t4 ∧
          t4.url.isSome = true)
    (hc_updSel : ∀ m : String, c = Conv.updAwaitSelector m →
        ∃ t4, (if m = n then some t2 else memTask s u m) = some t4 ∧
          t4.url.isSome = true ∧ t4.selector.isSome = true) :
    Inv ⟨setA u (setA n t2 ud) s.user_data, s.jobs, s.sched, s.db,
         setA u c s.conv⟩ := by
  have hTm : ∀ (v : Nat) (m : String), ¬ (v = u ∧ m = n) →
      memTask (⟨setA u (setA n t2 ud) s.user_data, s.jobs, s.sched, s.db,
        setA u c s.conv⟩ : SysState) v m = memTask s v m := by
    intro v m hcond
    by_cases hv : v = u
    · subst hv
      have hm : ¬ m = n := fun hmn => hcond ⟨rfl, hmn⟩
      simp only [memTask, memTasks]
      rw [getA_setA_same, hud]
      simp only [Option.some_bind]
      exact getA_setA_ne m n _ _ (Ne.symm hm)
    · simp only [memTask, memTasks]
      rw [getA_setA_ne v u _ _ (Ne.symm hv)]
  have hTn : memTask (⟨setA u (setA n t2 ud) s.user_data, s.jobs, s.sched, s.db,
      setA u c s.conv⟩ : SysState) u n = some t2 := by
    simp only [memTask, memTasks]
    rw [getA_setA_same]
    simp
  have hTif : ∀ m : String,
      memTask (⟨setA u (setA n t2 ud) s.user_data, s.jobs, s.sched, s.db,
        setA u c s.conv⟩ : SysState) u m =
      (if m = n then some t2 else memTask s u m) := by
    intro m
    by_cases hm : m = n
    · subst hm
      rw [hTn, if_pos rfl]
    · rw [hTm u m (fun hc => hm hc.2), if_neg hm]
  refine ⟨h.sr_db, ?_, ?_, ?_, ?_, ?_, ?_⟩
  · intro v m hdb2
    unfold memHasTask
    by_cases hv : v = u
    · subst hv
      by_cases hm : m = n
      · subst hm
        rw [hTn]
        rfl
      · rw [hTm v m (fun hc => hm hc.2)]
        exact h.db_mem v m hdb2
    · rw [hTm v m (fun hc => hv hc.1)]
      exact h.db_mem v m hdb2
  · intro v m t4 hm4 hcomp
    by_cases hv : v = u
    · subst hv
      by_cases hm : m = n
      · subst hm
        rw [hTn] at hm4
        cases hm4
        exact hcomp2 hcomp
      · rw [hTm v m (fun hc => hm hc.2)] at hm4
        exact h.complete_db v m t4 hm4 hcomp
    · rw [hTm v m (fun hc => hv hc.1)] at hm4
      exact h.complete_db v m t4 hm4 hcomp
  · intro v m hc2
    by_cases hv : v = u
    · subst hv
      simp only [convOf_mk] at hc2
      rw [getA_setA_same] at hc2
      simp only [Option.getD_some] at hc2
      obtain ⟨hd2, hsh⟩ := hc_addUrl m hc2
      refine ⟨hd2, ?_⟩
      intro t4 hm4
      rw [hTif m] at hm4
      exact hsh t4 hm4
    · have hc3 : convOf s v = Conv.addAwaitUrl m := by
        simpa [convOf, getA_setA_ne v u _ _ (Ne.symm hv)] using hc2
      obtain ⟨hd2, hsh⟩ := h.conv_addUrl v m hc3
      refine ⟨hd2, ?_⟩
      intro t4 hm4
      rw [hTm v m (fun hc => hv hc.1)] at hm4
      exact hsh t4 hm4
  · intro v m hc2
    by_cases hv : v = u
    · subst hv
      simp only [convOf_mk] at hc2
      rw [getA_setA_same] at hc2
      simp only [Option.getD_some] at hc2
      exact hc_addSel m hc2
    · exact h.conv_addSel v m
        (by simpa [convOf, getA_setA_ne v u _ _ (Ne.symm hv)] using hc2)
  · intro v m hc2
    by_cases hv : v = u
    · subst hv
      simp only [convOf_mk] at hc2
      rw [getA_setA_same] at hc2
      simp only [Option.getD_some] at hc2
      obtain ⟨t4, hm4, hu4⟩ := hc_updUrl m hc2
      exact ⟨t4, by rw [hTif m]; exact hm4, hu4⟩
    · have hc3 : convOf s v = Conv.updAwaitUrl m := by
        simpa [convOf, getA_setA_ne v u _ _ (Ne.symm hv)] using hc2
      obtain ⟨t0, hm0, hu0⟩ := h.conv_updUrl v m hc3
      exact ⟨t0, by rw [hTm v m (fun hc => hv hc.1)]; exact hm0, hu0⟩
  · intro v m hc2
    by_cases hv : v = u
    · subst hv
      simp only [convOf_mk] at hc2
      rw [getA_setA_same] at hc2
      simp only [Option.getD_some] at hc2
      obtain ⟨t4, hm4, hu4, hs4⟩ := hc_updSel m hc2
      exact ⟨t4, by rw [hTif m]; exact hm4, hu4, hs4⟩
    · have hc3 : convOf s v = Conv.updAwaitSelector m := by
        simpa [convOf, getA_setA_ne v u _ _ (Ne.symm hv)] using hc2
      obtain ⟨t0, hm0, hu0, hs0⟩ := h.conv_updSel v m hc3
      exact ⟨t0, by rw [hTm v m (fun hc => hv hc.1)]; exact hm0, hu0, hs0⟩

theorem Inv.step_url (s : SysState) (u : Nat) (text : String) (h : Inv s) :
    Inv (receive_url s u text).1 := by
  cases hcv : convOf s u
  case addAwaitUrl n =>
    cases hud : getA u s.user_data with
    | none =>
      have hres : (receive_url s u text).1 = s := by
        simp only [receive_url, hcv, hud]
      rw [hres]
      exact h
    | some ud =>
      cases hun : getA n ud with
      | none =>
        have hres : (receive_url s u text).1 = s := by
          simp only [receive_url, hcv, hud, hun]
        rw [hres]
        exact h
      | some t =>
        obtain ⟨hd, hsh⟩ := h.conv_addUrl u n hcv
        have hmem : memTask s u n = some t := by
          simp [memTask, memTasks, hud, hun]
        have hselN : t.selector = none := hsh t hmem
        have hres : (receive_url s u text).1 =
            ⟨setA u (setA n { t with url := some text } ud) s.user_data, s.jobs,
             s.sched, s.db, setA u (Conv.addAwaitSelector n) s.conv⟩ := by
          simp only [receive_url, hcv, hud, hun]
        rw [hres]
        apply Inv.set_task s u n ud { t with url := some text }
          (Conv.addAwaitSelector n) h hud
        · intro hcomp
          exfalso
          revert hcomp
          simp [Task.complete, hselN]
        · intro m hmeq
          cases hmeq
        · intro m hmeq
          cases hmeq
          exact hd
        · intro m hmeq
          cases hmeq
        · intro m hmeq
          cases hmeq
  all_goals
    have hres : (receive_url s u text).1 = s := by
      simp only [receive_url, hcv]
    rw [hres]
    exact h

theorem Inv.step_select (s : SysState) (u : Nat) (text : String) (h : Inv s) :
    Inv (select_task_to_update s u text).1 := by
  cases hcv : convOf s u
  case updAwaitName =>
    cases hud : getA u s.user_data with
    | none =>
      have hres : (select_task_to_update s u text).1 = s := by
        simp only [select_task_to_update, hcv, hud]
      rw [hres]
      exact h
    | some ud =>
      cases hun : getA text ud with
      | none =>
        have hres : (select_task_to_update s u text).1 = s := by
          simp only [select_task_to_update, hcv, hud, hun]
        rw [hres]
        exact h
      | some t =>
        cases hturl : t.url with
        | none =>
          have hres : (select_task_to_update s u text).1 = s := by
            simp only [select_task_to_update, hcv, hud, hun, hturl]
          rw [hres]
          exact h
        | some old_url =>
          have hmem : memTask s u text = some t := by
            simp [memTask, memTasks, hud, hun]
          have hres : (select_task_to_update s u text).1 =
              { s with conv := setA u (Conv.updAwaitUrl text) s.conv } := by
            simp only [select_task_to_update, hcv, hud, hun, hturl]
          have hrw : (⟨setA u (setA text t ud) s.user_data, s.jobs, s.sched,
              s.db, setA u (Conv.updAwaitUrl text) s.conv⟩ : SysState) =
              { s with conv := setA u (Conv.updAwaitUrl text) s.conv } := by
            rw [setA_of_getA_some text t ud hun, setA_of_getA_some u ud s.user_data hud]
          rw [hres, ← hrw]
          apply Inv.set_task s u text ud t (Conv.updAwaitUrl text) h hud
          · intro hcomp
            exact h.complete_db u text t hmem hcomp
          · intro m hmeq
            cases hmeq
          · intro m hmeq
            cases hmeq
          · intro m hmeq
            cases hmeq
            exact ⟨t, by rw [if_pos rfl], by simp [hturl]⟩
          · intro m hmeq
            cases hmeq
  all_goals
    have hres : (select_task_to_update s u text).1 = s := by
      simp only [select_task_to_update, hcv]
    rw [hres]
    exact h

theorem Inv.step_new_url (s : SysState) (u : Nat) (text : String) (h : Inv s) :
    Inv (receive_new_url s u text).1 := by
  cases hcv : convOf s u
  case updAwaitUrl n =>
    cases hud : getA u s.user_data with
    | none =>
      have hres : (receive_new_url s u text).1 = s := by
        simp only [receive_new_url, hcv, hud]
      rw [hres]
      exact h
    | some ud =>
      cases hun : getA n ud with
      | none =>
        have hres : (receive_new_url s u text).1 = s := by
          simp only [receive_new_url, hcv, hud, hun]
        rw [hres]
        exact h
      | some t =>
        have hmem : memTask s u n = some t := by
          simp [memTask, memTasks, hud, hun]
        obtain ⟨t0, hm0, hu0⟩ := h.conv_updUrl u n hcv
        rw [hmem] at hm0
        cases hm0
        by_cases hskip : lowerStr text = "skip"
        · cases hsel : t.selector with
          | none =>
            have hres : (receive_new_url s u text).1 = s := by
              simp only [receive_new_url, hcv, hud, hun, if_pos hskip, hsel]
            rw [hres]
            exact h
          | some sel0 =>
            have hres : (receive_new_url s u text).1 =
                { s with conv := setA u (Conv.updAwaitSelector n) s.conv } := by
              simp only [receive_new_url, hcv, hud, hun, if_pos hskip, hsel]
            have hrw : (⟨setA u (setA n t ud) s.user_data, s.jobs, s.sched,
                s.db, setA u (Conv.updAwaitSelector n) s.conv⟩ : SysState) =
                { s with conv := setA u (Conv.updAwaitSelector n) s.conv } := by
              rw [setA_of_getA_some n t ud hun, setA_of_getA_some u ud s.user_data hud]
            rw [hres, ← hrw]
            apply Inv.set_task s u n ud t (Conv.updAwaitSelector n) h hud
            · intro hcomp
              exact h.complete_db u n t hmem hcomp
            · intro m hmeq
              cases hmeq
            · intro m hmeq
              cases hmeq
            · intro m hmeq
              cases hmeq
            · intro m hmeq
              cases hmeq
              exact ⟨t, by rw [if_pos rfl], hu0, by simp [hsel]⟩
        · cases hsel : t.selector with
          | some sel0 =>
            have hres : (receive_new_url s u text).1 =
                ⟨setA u (setA n { t with url := some text } ud) s.user_data,
                 s.jobs, s.sched, s.db,
                 setA u (Conv.updAwaitSelector n) s.conv⟩ := by
              simp only [receive_new_url, hcv, hud, hun, if_neg hskip]
              simp only [hsel]
            rw [hres]
            apply Inv.set_task s u n ud { t with url := some text }
              (Conv.updAwaitSelector n) h hud
            · intro hcomp
              apply h.complete_db u n t hmem
              simp only [Task.complete] at hcomp ⊢
              simp [hsel, hu0]
            · intro m hmeq
              cases hmeq
            · intro m hmeq
              cases hmeq
            · intro m hmeq
              cases hmeq
            · intro m hmeq
              cases hmeq
              exact ⟨{ t with url := some text }, by rw [if_pos rfl], by simp,
                by simp [hsel]⟩
          | none =>
            have hconvA : getA u s.conv = some (Conv.updAwaitUrl n) := by
              cases hgc : getA u s.conv with
              | none => rw [convOf, hgc] at hcv; cases hcv
              | some c0 =>
                rw [convOf, hgc] at hcv
                simp only [Option.getD_some] at hcv
                rw [hcv]
            have hres : (receive_new_url s u text).1 =
                ⟨setA u (setA n { t with url := some text } ud) s.user_data,
                 s.jobs, s.sched, s.db, s.conv⟩ := by
              simp only [receive_new_url, hcv, hud, hun, if_neg hskip]
              simp only [hsel]
            have hrw : s.conv = setA u (Conv.updAwaitUrl n) s.conv :=
              (setA_of_getA_some u _ s.conv hconvA).symm
            rw [hres, hrw]
            apply Inv.set_task s u n ud { t with url := some text }
              (Conv.updAwaitUrl n) h hud
            · intro hcomp
              exfalso
              revert hcomp
              simp [Task.complete, hsel]
            · intro m hmeq
              cases hmeq
            · intro m hmeq
              cases hmeq
            · intro m hmeq
              cases hmeq
              exact ⟨{ t with url := some text }, by rw [if_pos rfl], by simp⟩
            · intro m hmeq
              cases hmeq
  all_goals
    have hres : (receive_new_url s u text).1 = s := by
      simp only [receive_new_url, hcv]
    rw [hres]
    exact h

/-- The cleanup ending of a failed create: the pending task (never stored
nor scheduled) is removed, the per-user dict is dropped when it became
empty, and the conversation ends. -/
theorem Inv.create_fail_cleanup (s : SysState) (u : Nat) (n : String)
    (ud : List (String × Task)) (h : Inv s) (hud : getA u s.user_data = some ud)
    (hdbF : dbHas s u n = false) :
    Inv ⟨(if (delA n ud).isEmpty then delA u s.user_data
          else setA u (delA n ud) s.user_data), s.jobs, s.sched, s.db,
         setA u Conv.idle s.conv⟩ := by
  apply Inv.remove_refit s _ u n h
  · intro v m hvm
    by_cases hE : (delA n ud).isEmpty
    · have hnil : delA n ud = [] := by
        cases hd : delA n ud with
        | nil => rfl
        | cons a l => rw [hd] at hE; simp [List.isEmpty] at hE
      simp only [hE, if_true]
      by_cases hv : v = u
      · subst hv
        have hm : ¬ m = n := fun hmn => hvm ⟨rfl, hmn⟩
        have : getA m ud = none := by
          rw [← getA_delA_ne m n ud (Ne.symm hm), hnil]
          rfl
        simp [memTask, memTasks, hud, this]
      · simp [memTask, memTasks, getA_delA_ne v u _ (Ne.symm hv)]
    · simp only [hE, if_false, Bool.false_eq_true]
      by_cases hv : v = u
      · subst hv
        have hm : ¬ m = n := fun hmn => hvm ⟨rfl, hmn⟩
        simp [memTask, memTasks, hud, getA_delA_ne m n ud (Ne.symm hm)]
      · simp [memTask, memTasks, getA_setA_ne v u _ _ (Ne.symm hv)]
  · by_cases hE : (delA n ud).isEmpty
    · simp [hE, memTask, memTasks]
    · simp [hE, memTask, memTasks]
  · intro v m
    rfl
  · intro v m
    rfl
  · intro v m
    rfl
  · intro v hv
    simp [convOf, getA_setA_ne v u _ _ (Ne.symm hv)]
  · simp [convOf]
  · exact hdbF

/-- The leaking ending of a failed create for a user with no jobs-registry
entry: run_repeating has already armed the job when the registry assignment
raises KeyError, so the cleanup removes the pending task and ends the
conversation while the leaked job stays scheduled, untracked by the
registry. -/
theorem Inv.create_leak_cleanup (s : SysState) (u : Nat) (n : String)
    (ud : List (String × Task)) (h : Inv s) (hud : getA u s.user_data = some ud)
    (hdbF : dbHas s u n = false) (hjb : getA u s.jobs = none) :
    Inv ⟨(if (delA n ud).isEmpty then delA u s.user_data
          else setA u (delA n ud) s.user_data), s.jobs, (u, n) :: s.sched, s.db,
         setA u Conv.idle s.conv⟩ := by
  have hM : ∀ (v : Nat) (m : String), ¬ (v = u ∧ m = n) →
      memTask (⟨(if (delA n ud).isEmpty then delA u s.user_data
        else setA u (delA n ud) s.user_data), s.jobs, (u, n) :: s.sched, s.db,
        setA u Conv.idle s.conv⟩ : SysState) v m = memTask s v m := by
    intro v m hvm
    by_cases hE : (delA n ud).isEmpty
    · have hnil : delA n ud = [] := by
        cases hd : delA n ud with
        | nil => rfl
        | cons a l => rw [hd] at hE; simp [List.isEmpty] at hE
      simp only [hE, if_true]
      by_cases hv : v = u
      · subst hv
        have hm : ¬ m = n := fun hmn => hvm ⟨rfl, hmn⟩
        have hgm : getA m ud = none := by
          rw [← getA_delA_ne m n ud (Ne.symm hm), hnil]
          rfl
        simp [memTask, memTasks, hud, hgm]
      · simp [memTask, memTasks, getA_delA_ne v u _ (Ne.symm hv)]
    · simp only [hE, if_false, Bool.false_eq_true]
      by_cases hv : v = u
      · subst hv
        have hm : ¬ m = n := fun hmn => hvm ⟨rfl, hmn⟩
        simp [memTask, memTasks, hud, getA_delA_ne m n ud (Ne.symm hm)]
      · simp [memTask, memTasks, getA_setA_ne v u _ _ (Ne.symm hv)]
  have hMn : memTask (⟨(if (delA n ud).isEmpty then delA u s.user_data
      else setA u (delA n ud) s.user_data), s.jobs, (u, n) :: s.sched, s.db,
      setA u Conv.idle s.conv⟩ : SysState) u n = none := by
    by_cases hE : (delA n ud).isEmpty
    · simp [hE, memTask, memTasks]
    · simp [hE, memTask, memTasks]
  refine ⟨?_, ?_, ?_, ?_, ?_, ?_, ?_⟩
  · intro v m hs hr
    by_cases hvm : v = u ∧ m = n
    · obtain ⟨rfl, rfl⟩ := hvm
      have hr2 : regHas s v m = true := hr
      rw [regHas_eq, hjb] at hr2
      cases hr2
    · have hs2 : memL (v, m) ((u, n) :: s.sched) = true := hs
      rw [memL_cons] at hs2
      rw [if_neg (fun hc => hvm ⟨congrArg Prod.fst hc.symm,
        congrArg Prod.snd hc.symm⟩)] at hs2
      exact h.sr_db v m hs2 hr
  · intro v m hdb2
    by_cases hvm : v = u ∧ m = n
    · obtain ⟨rfl, rfl⟩ := hvm
      have hdb3 : dbHas s v m = true := hdb2
      rw [hdbF] at hdb3
      cases hdb3
    · unfold memHasTask
      rw [hM v m hvm]
      exact h.db_mem v m hdb2
  · intro v m t4 hm4 hcomp
    by_cases hvm : v = u ∧ m = n
    · obtain ⟨rfl, rfl⟩ := hvm
      rw [hMn] at hm4
      cases hm4
    · rw [hM v m hvm] at hm4
      exact h.complete_db v m t4 hm4 hcomp
  · intro v m hc2
    by_cases hv : v = u
    · subst hv
      simp only [convOf_mk] at hc2
      rw [getA_setA_same] at hc2
      simp at hc2
    · have hc3 : convOf s v = Conv.addAwaitUrl m := by
        simpa [convOf, getA_setA_ne v u _ _ (Ne.symm hv)] using hc2
      obtain ⟨hd2, hsh⟩ := h.conv_addUrl v m hc3
      refine ⟨hd2, ?_⟩
      intro t4 hm4
      rw [hM v m (fun hc => hv hc.1)] at hm4
      exact hsh t4 hm4
  · intro v m hc2
    by_cases hv : v = u
    · subst hv
      simp only [convOf_mk] at hc2
      rw [getA_setA_same] at hc2
      simp at hc2
    · exact h.conv_addSel v m
        (by simpa [convOf, getA_setA_ne v u _ _ (Ne.symm hv)] using hc2)
  · intro v m hc2
    by_cases hv : v = u
    · subst hv
      simp only [convOf_mk] at hc2
      rw [getA_setA_same] at hc2
      simp at hc2
    · have hc3 : convOf s v = Conv.updAwaitUrl m := by
        simpa [convOf, getA_setA_ne v u _ _ (Ne.symm hv)] using hc2
      obtain ⟨t0, hm0, hu0⟩ := h.conv_updUrl v m hc3
      exact ⟨t0, by rw [hM v m (fun hc => hv hc.1)]; exact hm0, hu0⟩
  · intro v m hc2
    by_cases hv : v = u
    · subst hv
      simp only [convOf_mk] at hc2
      rw [getA_setA_same] at hc2
      simp at hc2
    · have hc3 : convOf s v = Conv.updAwaitSelector m := by
        simpa [convOf, getA_setA_ne v u _ _ (Ne.symm hv)] using hc2
      obtain ⟨t0, hm0, hu0, hs0⟩ := h.conv_updSel v m hc3
      exact ⟨t0, by rw [hM v m (fun hc => hv hc.1)]; exact hm0, hu0, hs0⟩

theorem Inv.step_selector (s : SysState) (u : Nat) (text : String)
    (fo : FetchOutcome) (h : Inv s) : Inv (receive_selector s u text fo true).1 := by
  cases hcv : convOf s u
  case addAwaitSelector n =>
    cases hud : getA u s.user_data with
    | none =>
      have hres : (receive_selector s u text fo true).1 = s := by
        simp only [receive_selector, hcv, hud]
      rw [hres]
      exact h
    | some ud =>
      cases hun : getA n ud with
      | none =>
        have hres : (receive_selector s u text fo true).1 = s := by
          simp only [receive_selector, hcv, hud, hun]
        rw [hres]
        exact h
      | some t =>
        have hdF := h.conv_addSel u n hcv
        have hgetdb : getA (u, n) s.db = none := by
          unfold dbHas dbRow at hdF
          exact Option.not_isSome_iff_eq_none.mp (by simp [hdF])
        cases hturl : t.url with
        | none =>
          have hres : (receive_selector s u text fo true).1 =
              ⟨(if (delA n ud).isEmpty then delA u s.user_data
                else setA u (delA n ud) s.user_data), s.jobs, s.sched, s.db,
               setA u Conv.idle s.conv⟩ := by
            simp only [receive_selector, hcv, hud, hun, setup_monitoring_task,
              memTask, memTasks, getA_setA_same, Option.some_bind, hturl]
            simp [delA_setA_same, setA_setA_same]
          rw [hres]
          exact Inv.create_fail_cleanup s u n ud h hud hdF
        | some url0 =>
          by_cases hemp : url0 = "" ∨ text = ""
          · have hres : (receive_selector s u text fo true).1 =
                ⟨(if (delA n ud).isEmpty then delA u s.user_data
                  else setA u (delA n ud) s.user_data), s.jobs, s.sched, s.db,
                 setA u Conv.idle s.conv⟩ := by
              simp only [receive_selector, hcv, hud, hun, setup_monitoring_task,
                memTask, memTasks, getA_setA_same, Option.some_bind, hturl,
                if_pos hemp]
              simp [delA_setA_same, setA_setA_same]
            rw [hres]
            exact Inv.create_fail_cleanup s u n ud h hud hdF
          · cases fo with
            | notFound =>
              have hres : (receive_selector s u text FetchOutcome.notFound true).1 =
                  ⟨(if (delA n ud).isEmpty then delA u s.user_data
                    else setA u (delA n ud) s.user_data), s.jobs, s.sched, s.db,
                   setA u Conv.idle s.conv⟩ := by
                simp only [receive_selector, hcv, hud, hun, setup_monitoring_task,
                  memTask, memTasks, getA_setA_same, Option.some_bind, hturl,
                  if_neg hemp]
                simp [delA_setA_same, setA_setA_same]
              rw [hres]
              exact Inv.create_fail_cleanup s u n ud h hud hdF
            | fetchErr =>
              have hres : (receive_selector s u text FetchOutcome.fetchErr true).1 =
                  ⟨(if (delA n ud).isEmpty then delA u s.user_data
                    else setA u (delA n ud) s.user_data), s.jobs, s.sched, s.db,
                   setA u Conv.idle s.conv⟩ := by
                simp only [receive_selector, hcv, hud, hun, setup_monitoring_task,
                  memTask, memTasks, getA_setA_same, Option.some_bind, hturl,
                  if_neg hemp]
                simp [delA_setA_same, setA_setA_same]
              rw [hres]
              exact Inv.create_fail_cleanup s u n ud h hud hdF
            | ok snap =>
              cases hjb : getA u s.jobs with
              | none =>
                have hres : (receive_selector s u text (FetchOutcome.ok snap) true).1 =
                    ⟨(if (delA n ud).isEmpty then delA u s.user_data
                      else setA u (delA n ud) s.user_data), s.jobs,
                     (u, n) :: s.sched, s.db,
                     setA u Conv.idle s.conv⟩ := by
                  simp only [receive_selector, hcv, hud, hun, setup_monitoring_task,
                    memTask, memTasks, getA_setA_same, Option.some_bind, hturl,
                    if_neg hemp, hjb]
                  simp [delA_setA_same, setA_setA_same]
                rw [hres]
                exact Inv.create_leak_cleanup s u n ud h hud hdF hjb
              | some jb =>
                have hres : (receive_selector s u text (FetchOutcome.ok snap) true).1 =
                    ⟨setA u (setA n ⟨some url0, some text, some snap⟩ ud) s.user_data,
                     setA u (setA n () jb) s.jobs, (u, n) :: s.sched,
                     setA (u, n) ⟨url0, text, snap⟩ s.db,
                     setA u Conv.idle s.conv⟩ := by
                  simp only [receive_selector, hcv, hud, hun, setup_monitoring_task,
                    memTask, memTasks, getA_setA_same, Option.some_bind, hturl,
                    if_neg hemp, hjb, Option.getD_some, setA_setA_same]
                  simp [hgetdb, setA_setA_same]
                rw [hres]
                apply Inv.refit s _ u n ⟨some url0, some text, some snap⟩ h
                · intro v m hvm
                  by_cases hv : v = u
                  · subst hv
                    have hm : ¬ m = n := fun hmn => hvm ⟨rfl, hmn⟩
                    simp [memTask, memTasks, hud, getA_setA_ne m n _ _ (Ne.symm hm)]
                  · simp [memTask, memTasks, getA_setA_ne v u _ _ (Ne.symm hv)]
                · simp [memTask, memTasks]
                · intro v m hvm
                  rw [regHas_eq, regHas_eq]
                  by_cases hv : v = u
                  · subst hv
                    have hm : ¬ m = n := fun hmn => hvm ⟨rfl, hmn⟩
                    rw [getA_setA_same, hjb]
                    simp [getA_setA_ne m n _ _ (Ne.symm hm)]
                  · rw [getA_setA_ne v u _ _ (Ne.symm hv)]
                · intro v m hvm
                  unfold schedHas
                  simp only [memL_cons]
                  rw [if_neg (fun hc => hvm ⟨congrArg Prod.fst hc.symm, congrArg Prod.snd hc.symm⟩)]
                · intro v m hvm
                  unfold dbHas dbRow
                  rw [getA_setA_ne (v, m) (u, n) _ _
                    (fun hc => hvm ⟨(Prod.mk.injEq _ _ _ _ ▸ hc).1.symm ▸ rfl, by
                      cases hc; exact rfl⟩)]
                · intro v hv
                  simp [convOf, getA_setA_ne v u _ _ (Ne.symm hv)]
                · simp [convOf]
                · intro hs2 hr2
                  simp [dbHas, dbRow]
                · intro hcomp
                  simp [dbHas, dbRow]
  all_goals
    have hres : (receive_selector s u text fo true).1 = s := by
      simp only [receive_selector, hcv]
    rw [hres]
    exact h

/-- The failure ending of the update flow: the conversation ends, the task
at the key keeps an in-memory value and its stored row, and the job at the
key is not scheduled (whatever happened to registry and schedule of other
keys is described by the transport hypotheses). -/
theorem Inv.update_fail (s : SysState) (u : Nat) (n : String)
    (ud : List (String × Task)) (tU : Task)
    (J : List (Nat × List (String × Unit))) (C : List (Nat × String))
    (h : Inv s) (hud : getA u s.user_data = some ud)
    (hdbT : dbHas s u n = true)
    (hRJ : ∀ (v : Nat) (m : String), ¬ (v = u ∧ m = n) →
      (getA m ((getA v J).getD [])).isSome = regHas s v m)
    (hSC : ∀ (v : Nat) (m : String), ¬ (v = u ∧ m = n) →
      memL (v, m) C = schedHas s v m) :
    Inv ⟨setA u (setA n tU ud) s.user_data, J, C, s.db,
         setA u Conv.idle s.conv⟩ := by
  apply Inv.refit s _ u n tU h
  · intro v m hvm
    by_cases hv : v = u
    · subst hv
      have hm : ¬ m = n := fun hmn => hvm ⟨rfl, hmn⟩
      simp [memTask, memTasks, hud, getA_setA_ne m n _ _ (Ne.symm hm)]
    · simp [memTask, memTasks, getA_setA_ne v u _ _ (Ne.symm hv)]
  · simp [memTask, memTasks]
  · intro v m hvm
    rw [regHas_eq]
    exact hRJ v m hvm
  · intro v m hvm
    exact hSC v m hvm
  · intro v m hvm
    rfl
  · intro v hv
    simp [convOf, getA_setA_ne v u _ _ (Ne.symm hv)]
  · simp [convOf]
  · intro hs2 hr2
    exact hdbT
  · intro hcomp
    exact hdbT

/-- The success ending of the create and update flows: the task at the key
holds the re-validated value, its job is registered and scheduled, its row
rewritten; the conversation ends. -/
theorem Inv.update_success (s : SysState) (u : Nat) (n : String)
    (ud : List (String × Task)) (t3 : Task) (row : Row)
    (J : List (Nat × List (String × Unit))) (C : List (Nat × String)) (h : Inv s)
    (hud : getA u s.user_data = some ud)
    (hRJ : ∀ (v : Nat) (m : String), ¬ (v = u ∧ m = n) →
      (getA m ((getA v J).getD [])).isSome = regHas s v m)
    (hSC : ∀ (v : Nat) (m : String), ¬ (v = u ∧ m = n) →
      memL (v, m) C = schedHas s v m) :
    Inv ⟨setA u (setA n t3 ud) s.user_data, J, (u, n) :: C,
         setA (u, n) row s.db, setA u Conv.idle s.conv⟩ := by
  apply Inv.refit s _ u n t3 h
  · intro v m hvm
    by_cases hv : v = u
    · subst hv
      have hm : ¬ m = n := fun hmn => hvm ⟨rfl, hmn⟩
      simp [memTask, memTasks, hud, getA_setA_ne m n _ _ (Ne.symm hm)]
    · simp [memTask, memTasks, getA_setA_ne v u _ _ (Ne.symm hv)]
  · simp [memTask, memTasks]
  · intro v m hvm
    rw [regHas_eq]
    exact hRJ v m hvm
  · intro v m hvm
    unfold schedHas
    simp only [memL_cons]
    rw [if_neg (fun hc => hvm ⟨congrArg Prod.fst hc.symm, congrArg Prod.snd hc.symm⟩)]
    exact hSC v m hvm
  · intro v m hvm
    unfold dbHas dbRow
    rw [getA_setA_ne (v, m) (u, n) _ _ (fun hc => by cases hc; exact hvm ⟨rfl, rfl⟩)]
  · intro v hv
    simp [convOf, getA_setA_ne v u _ _ (Ne.symm hv)]
  · simp [convOf]
  · intro hs2 hr2
    simp [dbHas, dbRow]
  · intro hcomp
    simp [dbHas, dbRow]

/-- The whole tail of the update flow (disarm, re-validate, persist or
not, end conversation) preserves the invariant, for any task value whose
url and selector keys are present and whose row is stored. -/
theorem Inv.update_tail (s : SysState) (u : Nat) (n : String)
    (ud : List (String × Task)) (tU : Task) (url0 sel0 : String) (r0 : Row)
    (fo : FetchOutcome) (h : Inv s)
    (hud : getA u s.user_data = some ud)
    (hurl : tU.url = some url0) (hsel : tU.selector = some sel0)
    (hr0 : getA (u, n) s.db = some r0) :
    Inv (finish_update (⟨setA u (setA n tU ud) s.user_data, s.jobs, s.sched,
      s.db, s.conv⟩ : SysState) u n fo).1 := by
  have hdbT : dbHas s u n = true := by
    simp [dbHas, dbRow, hr0]
  cases hjb : getA u s.jobs with
  | none =>
    by_cases hemp : url0 = "" ∨ sel0 = ""
    · have hres : (finish_update (⟨setA u (setA n tU ud) s.user_data, s.jobs,
          s.sched, s.db, s.conv⟩ : SysState) u n fo).1 =
          ⟨setA u (setA n tU ud) s.user_data, s.jobs, s.sched, s.db,
           setA u Conv.idle s.conv⟩ := by
        simp only [finish_update, disarm, hjb, setup_monitoring_task, memTask,
          memTasks, getA_setA_same, Option.some_bind, hurl, hsel, if_pos hemp]
        simp
      rw [hres]
      exact Inv.update_fail s u n ud tU s.jobs s.sched h hud hdbT
        (fun v m _ => (regHas_eq s v m).symm) (fun v m _ => rfl)
    · cases fo with
      | notFound =>
        have hres : (finish_update (⟨setA u (setA n tU ud) s.user_data, s.jobs,
            s.sched, s.db, s.conv⟩ : SysState) u n FetchOutcome.notFound).1 =
            ⟨setA u (setA n tU ud) s.user_data, s.jobs, s.sched, s.db,
             setA u Conv.idle s.conv⟩ := by
          simp only [finish_update, disarm, hjb, setup_monitoring_task, memTask,
            memTasks, getA_setA_same, Option.some_bind, hurl, hsel, if_neg hemp]
          simp
        rw [hres]
        exact Inv.update_fail s u n ud tU s.jobs s.sched h hud hdbT
          (fun v m _ => (regHas_eq s v m).symm) (fun v m _ => rfl)
      | fetchErr =>
        have hres : (finish_update (⟨setA u (setA n tU ud) s.user_data, s.jobs,
            s.sched, s.db, s.conv⟩ : SysState) u n FetchOutcome.fetchErr).1 =
            ⟨setA u (setA n tU ud) s.user_data, s.jobs, s.sched, s.db,
             setA u Conv.idle s.conv⟩ := by
          simp only [finish_update, disarm, hjb, setup_monitoring_task, memTask,
            memTasks, getA_setA_same, Option.some_bind, hurl, hsel, if_neg hemp]
          simp
        rw [hres]
        exact Inv.update_fail s u n ud tU s.jobs s.sched h hud hdbT
          (fun v m _ => (regHas_eq s v m).symm) (fun v m _ => rfl)
      | ok snap =>
        have hres : (finish_update (⟨setA u (setA n tU ud) s.user_data, s.jobs,
            s.sched, s.db, s.conv⟩ : SysState) u n (FetchOutcome.ok snap)).1 =
            ⟨setA u (setA n { tU with initial_state := some snap } ud)
               s.user_data, s.jobs, (u, n) :: s.sched, s.db,
             setA u Conv.idle s.conv⟩ := by
          simp only [finish_update, disarm, hjb, setup_monitoring_task, memTask,
            memTasks, getA_setA_same, Option.some_bind, hurl, hsel, if_neg hemp,
            Option.getD_some, setA_setA_same]
          simp
        rw [hres]
        apply Inv.update_fail s u n ud { tU with initial_state := some snap }
          s.jobs ((u, n) :: s.sched) h hud hdbT
          (fun v m _ => (regHas_eq s v m).symm)
        intro v m hvm
        unfold schedHas
        simp only [memL_cons]
        rw [if_neg (fun hc => hvm ⟨congrArg Prod.fst hc.symm,
          congrArg Prod.snd hc.symm⟩)]
  | some jb =>
    cases hjn : getA n jb with
    | none =>
      by_cases hemp : url0 = "" ∨ sel0 = ""
      · have hres : (finish_update (⟨setA u (setA n tU ud) s.user_data, s.jobs,
            s.sched, s.db, s.conv⟩ : SysState) u n fo).1 =
            ⟨setA u (setA n tU ud) s.user_data, s.jobs, s.sched, s.db,
             setA u Conv.idle s.conv⟩ := by
          simp only [finish_update, disarm, hjb, hjn, setup_monitoring_task,
            memTask, memTasks, getA_setA_same, Option.some_bind, hurl, hsel,
            if_pos hemp]
          simp
        rw [hres]
        exact Inv.update_fail s u n ud tU s.jobs s.sched h hud hdbT
          (fun v m _ => (regHas_eq s v m).symm) (fun v m _ => rfl)
      · cases fo with
        | notFound =>
          have hres : (finish_update (⟨setA u (setA n tU ud) s.user_data, s.jobs,
              s.sched, s.db, s.conv⟩ : SysState) u n FetchOutcome.notFound).1 =
              ⟨setA u (setA n tU ud) s.user_data, s.jobs, s.sched, s.db,
               setA u Conv.idle s.conv⟩ := by
            simp only [finish_update, disarm, hjb, hjn, setup_monitoring_task,
              memTask, memTasks, getA_setA_same, Option.some_bind, hurl, hsel,
              if_neg hemp]
            simp
          rw [hres]
          exact Inv.update_fail s u n ud tU s.jobs s.sched h hud hdbT
            (fun v m _ => (regHas_eq s v m).symm) (fun v m _ => rfl)
        | fetchErr =>
          have hres : (finish_update (⟨setA u (setA n tU ud) s.user_data, s.jobs,
              s.sched, s.db, s.conv⟩ : SysState) u n FetchOutcome.fetchErr).1 =
              ⟨setA u (setA n tU ud) s.user_data, s.jobs, s.sched, s.db,
               setA u Conv.idle s.conv⟩ := by
            simp only [finish_update, disarm, hjb, hjn, setup_monitoring_task,
              memTask, memTasks, getA_setA_same, Option.some_bind, hurl, hsel,
              if_neg hemp]
            simp
          rw [hres]
          exact Inv.update_fail s u n ud tU s.jobs s.sched h hud hdbT
            (fun v m _ => (regHas_eq s v m).symm) (fun v m _ => rfl)
        | ok snap =>
          have hres : (finish_update (⟨setA u (setA n tU ud) s.user_data, s.jobs,
              s.sched, s.db, s.conv⟩ : SysState) u n (FetchOutcome.ok snap)).1 =
              ⟨setA u (setA n { tU with initial_state := some snap } ud)
                 s.user_data, setA u (setA n () jb) s.jobs, (u, n) :: s.sched,
               setA (u, n) ⟨url0, sel0, snap⟩ s.db,
               setA u Conv.idle s.conv⟩ := by
            simp only [finish_update, disarm, hjb, hjn, setup_monitoring_task,
              memTask, memTasks, getA_setA_same, Option.some_bind, hurl, hsel,
              if_neg hemp, Option.getD_some, setA_setA_same]
            simp [db_update_task, hr0, hurl, hsel]
          rw [hres]
          apply Inv.update_success s u n ud { tU with initial_state := some snap }
            ⟨url0, sel0, snap⟩ (setA u (setA n () jb) s.jobs) s.sched h hud
          · intro v m hvm
            by_cases hv : v = u
            · subst hv
              have hm : ¬ m = n := fun hmn => hvm ⟨rfl, hmn⟩
              rw [getA_setA_same, regHas_eq, hjb]
              simp [getA_setA_ne m n _ _ (Ne.symm hm)]
            · rw [getA_setA_ne v u _ _ (Ne.symm hv), regHas_eq]
          · intro v m hvm
            rfl
    | some jv =>
      by_cases hemp : url0 = "" ∨ sel0 = ""
      · have hres : (finish_update (⟨setA u (setA n tU ud) s.user_data, s.jobs,
            s.sched, s.db, s.conv⟩ : SysState) u n fo).1 =
            ⟨setA u (setA n tU ud) s.user_data, setA u (delA n jb) s.jobs,
             remL (u, n) s.sched, s.db, setA u Conv.idle s.conv⟩ := by
          simp only [finish_update, disarm, hjb, hjn, setup_monitoring_task,
            memTask, memTasks, getA_setA_same, Option.some_bind, hurl, hsel,
            if_pos hemp]
          simp
        rw [hres]
        apply Inv.update_fail s u n ud tU (setA u (delA n jb) s.jobs)
          (remL (u, n) s.sched) h hud hdbT
        · intro v m hvm
          by_cases hv : v = u
          · subst hv
            have hm : ¬ m = n := fun hmn => hvm ⟨rfl, hmn⟩
            rw [getA_setA_same, regHas_eq, hjb]
            simp [getA_delA_ne m n _ (Ne.symm hm)]
          · rw [getA_setA_ne v u _ _ (Ne.symm hv), regHas_eq]
        · intro v m hvm
          exact memL_remL_ne (v, m) (u, n) s.sched
            (fun hc => by cases hc; exact hvm ⟨rfl, rfl⟩)
      · cases fo with
        | notFound =>
          have hres : (finish_update (⟨setA u (setA n tU ud) s.user_data, s.jobs,
              s.sched, s.db, s.conv⟩ : SysState) u n FetchOutcome.notFound).1 =
              ⟨setA u (setA n tU ud) s.user_data, setA u (delA n jb) s.jobs,
               remL (u, n) s.sched, s.db, setA u Conv.idle s.conv⟩ := by
            simp only [finish_update, disarm, hjb, hjn, setup_monitoring_task,
              memTask, memTasks, getA_setA_same, Option.some_bind, hurl, hsel,
              if_neg hemp]
            simp
          rw [hres]
          apply Inv.update_fail s u n ud tU (setA u (delA n jb) s.jobs)
            (remL (u, n) s.sched) h hud hdbT
          · intro v m hvm
            by_cases hv : v = u
            · subst hv
              have hm : ¬ m = n := fun hmn => hvm ⟨rfl, hmn⟩
              rw [getA_setA_same, regHas_eq, hjb]
              simp [getA_delA_ne m n _ (Ne.symm hm)]
            · rw [getA_setA_ne v u _ _ (Ne.symm hv), regHas_eq]
          · intro v m hvm
            exact memL_remL_ne (v, m) (u, n) s.sched
              (fun hc => by cases hc; exact hvm ⟨rfl, rfl⟩)
        | fetchErr =>
          have hres : (finish_update (⟨setA u (setA n tU ud) s.user_data, s.jobs,
              s.sched, s.db, s.conv⟩ : SysState) u n FetchOutcome.fetchErr).1 =
              ⟨setA u (setA n tU ud) s.user_data, setA u (delA n jb) s.jobs,
               remL (u, n) s.sched, s.db, setA u Conv.idle s.conv⟩ := by
            simp only [finish_update, disarm, hjb, hjn, setup_monitoring_task,
              memTask, memTasks, getA_setA_same, Option.some_bind, hurl, hsel,
              if_neg hemp]
            simp
          rw [hres]
          apply Inv.update_fail s u n ud tU (setA u (delA n jb) s.jobs)
            (remL (u, n) s.sched) h hud hdbT
          · intro v m hvm
            by_cases hv : v = u
            · subst hv
              have hm : ¬ m = n := fun hmn => hvm ⟨rfl, hmn⟩
              rw [getA_setA_same, regHas_eq, hjb]
              simp [getA_delA_ne m n _ (Ne.symm hm)]
            · rw [getA_setA_ne v u _ _ (Ne.symm hv), regHas_eq]
          · intro v m hvm
            exact memL_remL_ne (v, m) (u, n) s.sched
              (fun hc => by cases hc; exact hvm ⟨rfl, rfl⟩)
        | ok snap =>
          have hres : (finish_update (⟨setA u (setA n tU ud) s.user_data, s.jobs,
              s.sched, s.db, s.conv⟩ : SysState) u n (FetchOutcome.ok snap)).1 =
              ⟨setA u (setA n { tU with initial_state := some snap } ud)
                 s.user_data, setA u (setA n () (delA n jb)) s.jobs,
               (u, n) :: remL (u, n) s.sched,
               setA (u, n) ⟨url0, sel0, snap⟩ s.db,
               setA u Conv.idle s.conv⟩ := by
            simp only [finish_update, disarm, hjb, hjn, setup_monitoring_task,
              memTask, memTasks, getA_setA_same, Option.some_bind, hurl, hsel,
              if_neg hemp, Option.getD_some, setA_setA_same]
            simp [db_update_task, hr0, hurl, hsel]
          rw [hres]
          apply Inv.update_success s u n ud { tU with initial_state := some snap }
            ⟨url0, sel0, snap⟩ (setA u (setA n () (delA n jb)) s.jobs)
            (remL (u, n) s.sched) h hud
          · intro v m hvm
            by_cases hv : v = u
            · subst hv
              have hm : ¬ m = n := fun hmn => hvm ⟨rfl, hmn⟩
              rw [getA_setA_same, regHas_eq, hjb]
              simp [getA_setA_ne m n _ _ (Ne.symm hm),
                getA_delA_ne m n _ (Ne.symm hm)]
            · rw [getA_setA_ne v u _ _ (Ne.symm hv), regHas_eq]
          · intro v m hvm
            exact memL_remL_ne (v, m) (u, n) s.sched
              (fun hc => by cases hc; exact hvm ⟨rfl, rfl⟩)

theorem getA_none_of_delA_nil {α : Type u} {β : Type v} [DecidableEq α]
    (n m : α) (l : List (α × β)) (hnil : delA n l = []) (hm : ¬ m = n) :
    getA m l = none := by
  have hx := getA_delA_ne m n l fun he => hm he.symm
  rw [hnil] at hx
  exact hx.symm

theorem Inv.delete_found (s : SysState) (u : Nat) (n : String)
    (jobs2 : List (Nat × List (String × Unit))) (sched2 : List (Nat × String))
    (ud : List (String × Task)) (h : Inv s)
    (hud : getA u s.user_data = some ud)
    (hR : ∀ (v : Nat) (m : String), ¬ (v = u ∧ m = n) →
      (getA m ((getA v jobs2).getD [])).isSome =
        (getA m ((getA v s.jobs).getD [])).isSome)
    (hS : ∀ (v : Nat) (m : String), ¬ (v = u ∧ m = n) →
      memL (v, m) sched2 = memL (v, m) s.sched)
    (hRn : (getA n ((getA u jobs2).getD [])).isSome = false) :
    Inv ⟨if (delA n ud).isEmpty then delA u s.user_data
           else setA u (delA n ud) s.user_data,
         jobs2, sched2, db_delete_task s.db u n, setA u Conv.idle s.conv⟩ := by
  apply Inv.delete_refit s _ u n h
  · intro v m hvm
    by_cases hv : v = u
    · subst hv
      have hm : ¬ m = n := fun he => hvm ⟨rfl, he⟩
      by_cases hemp : (delA n ud).isEmpty
      · have hnil : delA n ud = [] := List.isEmpty_iff.mp hemp
        simp only [memTask_mk, if_pos hemp]
        rw [getA_delA_same]
        simp only [Option.none_bind, memTask, memTasks]
        rw [hud, Option.some_bind, getA_none_of_delA_nil n m ud hnil hm]
      · simp only [memTask_mk, if_neg hemp]
        rw [getA_setA_same, Option.some_bind,
          getA_delA_ne m n ud fun he => hm he.symm]
        simp only [memTask, memTasks]
        rw [hud, Option.some_bind]
    · simp only [memTask_mk]
      by_cases hemp : (delA n ud).isEmpty
      · rw [if_pos hemp, getA_delA_ne v u s.user_data fun he => hv he.symm]
        rfl
      · rw [if_neg hemp, getA_setA_ne v u _ s.user_data fun he => hv he.symm]
        rfl
  · by_cases hemp : (delA n ud).isEmpty
    · simp only [memTask_mk, if_pos hemp]
      rw [getA_delA_same]
      rfl
    · simp only [memTask_mk, if_neg hemp]
      rw [getA_setA_same, Option.some_bind, getA_delA_same]
  · intro v m hvm
    rw [regHas_eq, regHas_eq]
    exact hR v m hvm
  · intro v m hvm
    exact hS v m hvm
  · rw [regHas_eq]
    exact hRn
  · intro v m hvm
    have hne : (u, n) ≠ (v, m) := by
      intro he
      injection he with h1 h2
      exact hvm ⟨h1.symm, h2.symm⟩
    simp only [dbHas_mk, db_delete_task]
    rw [getA_delA_ne (v, m) (u, n) s.db hne]
    rfl
  · simp only [dbHas_mk, db_delete_task]
    rw [getA_delA_same]
    rfl
  · intro v hv
    simp only [convOf_mk]
    rw [getA_setA_ne v u _ s.conv fun he => hv he.symm]
    rfl
  · simp only [convOf_mk]
    rw [getA_setA_same]
    rfl

theorem Inv.delete_missing (s : SysState) (u : Nat) (n : String)
    (jobs2 : List (Nat × List (String × Unit))) (sched2 : List (Nat × String))
    (h : Inv s)
    (hmemN : memTask s u n = none)
    (hR : ∀ (v : Nat) (m : String), ¬ (v = u ∧ m = n) →
      (getA m ((getA v jobs2).getD [])).isSome =
        (getA m ((getA v s.jobs).getD [])).isSome)
    (hS : ∀ (v : Nat) (m : String), ¬ (v = u ∧ m = n) →
      memL (v, m) sched2 = memL (v, m) s.sched)
    (hRn : (getA n ((getA u jobs2).getD [])).isSome = false) :
    Inv ⟨s.user_data, jobs2, sched2, s.db, setA u Conv.idle s.conv⟩ := by
  have hdbF : dbHas s u n = false := by
    cases hq : dbHas s u n with
    | false => rfl
    | true =>
      have hx := h.db_mem u n hq
      unfold memHasTask at hx
      rw [hmemN] at hx
      cases hx
  apply Inv.delete_refit s _ u n h
  · intro v m hvm
    rfl
  · exact hmemN
  · intro v m hvm
    rw [regHas_eq, regHas_eq]
    exact hR v m hvm
  · intro v m hvm
    exact hS v m hvm
  · rw [regHas_eq]
    exact hRn
  · intro v m hvm
    rfl
  · exact hdbF
  · intro v hv
    simp only [convOf_mk]
    rw [getA_setA_ne v u _ s.conv fun he => hv he.symm]
    rfl
  · simp only [convOf_mk]
    rw [getA_setA_same]
    rfl

theorem Inv.step_delete (s : SysState) (u : Nat) (text : String) (h : Inv s) :
    Inv (receive_task_to_delete s u text).1 := by
  cases hcv : convOf s u
  case delAwaitName =>
    have hCidle : ∀ m : String, ¬ (Conv.idle = Conv.addAwaitUrl m) ∧
        ¬ (Conv.idle = Conv.addAwaitSelector m) ∧
        ¬ (Conv.idle = Conv.updAwaitUrl m) ∧
        ¬ (Conv.idle = Conv.updAwaitSelector m) := by
      intro m
      refine ⟨?_, ?_, ?_, ?_⟩ <;> intro hx <;> cases hx
    cases hjb : getA u s.jobs with
    | none =>
      have hRn : (getA text ((getA u s.jobs).getD [])).isSome = false := by
        rw [hjb]
        rfl
      cases hud : getA u s.user_data with
      | none =>
        have hres : (receive_task_to_delete s u text).1 =
            { s with conv := setA u Conv.idle s.conv } := by
          simp only [receive_task_to_delete, hcv, hjb, hud]
        rw [hres]
        exact Inv.set_conv s u Conv.idle h hCidle
      | some ud =>
        cases hun : getA text ud with
        | none =>
          have hres : (receive_task_to_delete s u text).1 =
              { s with conv := setA u Conv.idle s.conv } := by
            simp only [receive_task_to_delete, hcv, hjb, hud, hun]
          rw [hres]
          exact Inv.set_conv s u Conv.idle h hCidle
        | some t0 =>
          have hres : (receive_task_to_delete s u text).1 =
              ⟨if (delA text ud).isEmpty then delA u s.user_data
                 else setA u (delA text ud) s.user_data,
               s.jobs, s.sched, db_delete_task s.db u text,
               setA u Conv.idle s.conv⟩ := by
            simp only [receive_task_to_delete, hcv, hjb, hud, hun]
          rw [hres]
          exact Inv.delete_found s u text s.jobs s.sched ud h hud
            (fun v m hvm => rfl) (fun v m hvm => rfl) hRn
    | some jb =>
      cases hjn : getA text jb with
      | none =>
        have hRn : (getA text ((getA u s.jobs).getD [])).isSome = false := by
          rw [hjb]
          simp [hjn]
        cases hud : getA u s.user_data with
        | none =>
          have hres : (receive_task_to_delete s u text).1 =
              { s with conv := setA u Conv.idle s.conv } := by
            simp only [receive_task_to_delete, hcv, hjb, hjn, hud]
          rw [hres]
          exact Inv.set_conv s u Conv.idle h hCidle
        | some ud =>
          cases hun : getA text ud with
          | none =>
            have hres : (receive_task_to_delete s u text).1 =
                { s with conv := setA u Conv.idle s.conv } := by
              simp only [receive_task_to_delete, hcv, hjb, hjn, hud, hun]
            rw [hres]
            exact Inv.set_conv s u Conv.idle h hCidle
          | some t0 =>
            have hres : (receive_task_to_delete s u text).1 =
                ⟨if (delA text ud).isEmpty then delA u s.user_data
                   else setA u (delA text ud) s.user_data,
                 s.jobs, s.sched, db_delete_task s.db u text,
                 setA u Conv.idle s.conv⟩ := by
              simp only [receive_task_to_delete, hcv, hjb, hjn, hud, hun]
            rw [hres]
            exact Inv.delete_found s u text s.jobs s.sched ud h hud
              (fun v m hvm => rfl) (fun v m hvm => rfl) hRn
      | some j0 =>
        have hJR : ∀ (v : Nat) (m : String), ¬ (v = u ∧ m = text) →
            (getA m ((getA v (if (delA text jb).isEmpty then delA u s.jobs
              else setA u (delA text jb) s.jobs)).getD [])).isSome =
            (getA m ((getA v s.jobs).getD [])).isSome := by
          intro v m hvm
          by_cases hv : v = u
          · subst hv
            have hm : ¬ m = text := fun he => hvm ⟨rfl, he⟩
            by_cases hemp : (delA text jb).isEmpty
            · have hnil : delA text jb = [] := List.isEmpty_iff.mp hemp
              rw [if_pos hemp, getA_delA_same, hjb]
              simp only [Option.getD_none, Option.getD_some]
              rw [getA_none_of_delA_nil text m jb hnil hm]
              rfl
            · rw [if_neg hemp, getA_setA_same, hjb]
              simp only [Option.getD_some]
              rw [getA_delA_ne m text jb fun he => hm he.symm]
          · by_cases hemp : (delA text jb).isEmpty
            · rw [if_pos hemp, getA_delA_ne v u s.jobs fun he => hv he.symm]
            · rw [if_neg hemp, getA_setA_ne v u _ s.jobs fun he => hv he.symm]
        have hJS : ∀ (v : Nat) (m : String), ¬ (v = u ∧ m = text) →
            memL (v, m) (remL (u, text) s.sched) = memL (v, m) s.sched := by
          intro v m hvm
          apply memL_remL_ne
          intro he
          injection he with h1 h2
          exact hvm ⟨h1.symm, h2.symm⟩
        have hJRn : (getA text ((getA u (if (delA text jb).isEmpty
            then delA u s.jobs else setA u (delA text jb) s.jobs)).getD [])).isSome
            = false := by
          by_cases hemp : (delA text jb).isEmpty
          · rw [if_pos hemp, getA_delA_same]
            rfl
          · rw [if_neg hemp, getA_setA_same]
            simp
        cases hud : getA u s.user_data with
        | none =>
          have hmemN : memTask s u text = none := by
            unfold memTask memTasks
            rw [hud]
            rfl
          have hres : (receive_task_to_delete s u text).1 =
              ⟨s.user_data, if (delA text jb).isEmpty then delA u s.jobs
                 else setA u (delA text jb) s.jobs,
               remL (u, text) s.sched, s.db, setA u Conv.idle s.conv⟩ := by
            simp only [receive_task_to_delete, hcv, hjb, hjn, hud]
          rw [hres]
          exact Inv.delete_missing s u text _ _ h hmemN hJR hJS hJRn
        | some ud =>
          cases hun : getA text ud with
          | none =>
            have hmemN : memTask s u text = none := by
              unfold memTask memTasks
              rw [hud, Option.some_bind, hun]
            have hres : (receive_task_to_delete s u text).1 =
                ⟨s.user_data, if (delA text jb).isEmpty then delA u s.jobs
                   else setA u (delA text jb) s.jobs,
                 remL (u, text) s.sched, s.db, setA u Conv.idle s.conv⟩ := by
              simp only [receive_task_to_delete, hcv, hjb, hjn, hud, hun]
            rw [hres]
            exact Inv.delete_missing s u text _ _ h hmemN hJR hJS hJRn
          | some t0 =>
            have hres : (receive_task_to_delete s u text).1 =
                ⟨if (delA text ud).isEmpty then delA u s.user_data
                   else setA u (delA text ud) s.user_data,
                 if (delA text jb).isEmpty then delA u s.jobs
                   else setA u (delA text jb) s.jobs,
                 remL (u, text) s.sched, db_delete_task s.db u text,
                 setA u Conv.idle s.conv⟩ := by
              simp only [receive_task_to_delete, hcv, hjb, hjn, hud, hun]
            rw [hres]
            exact Inv.delete_found s u text _ _ ud h hud hJR hJS hJRn
  all_goals
    have hres : (receive_task_to_delete s u text).1 = s := by
      simp only [receive_task_to_delete, hcv]
    rw [hres]
    exact h

theorem Inv.step_new_selector (s : SysState) (u : Nat) (text : String)
    (fo : FetchOutcome) (h : Inv s) :
    Inv (receive_new_selector_and_update s u text fo).1 := by
  cases hcv : convOf s u
  case updAwaitSelector n =>
    obtain ⟨t, hm0, hu0, hs0⟩ := h.conv_updSel u n hcv
    obtain ⟨ud, hud, hun⟩ :
        ∃ ud, getA u s.user_data = some ud ∧ getA n ud = some t := by
      cases hx : getA u s.user_data with
      | none => simp [memTask, memTasks, hx] at hm0
      | some ud => exact ⟨ud, rfl, by simpa [memTask, memTasks, hx] using hm0⟩
    obtain ⟨url0, hurl⟩ := Option.isSome_iff_exists.mp hu0
    obtain ⟨sel0, hsel⟩ := Option.isSome_iff_exists.mp hs0
    have hdbT : dbHas s u n = true :=
      h.complete_db u n t hm0 (by simp [Task.complete, hu0, hs0])
    obtain ⟨r0, hr0⟩ : ∃ r0, getA (u, n) s.db = some r0 := by
      unfold dbHas dbRow at hdbT
      exact Option.isSome_iff_exists.mp hdbT
    by_cases hskip : lowerStr text = "skip"
    · have hrw : (⟨setA u (setA n t ud) s.user_data, s.jobs, s.sched, s.db,
          s.conv⟩ : SysState) = s := by
        rw [setA_of_getA_some n t ud hun, setA_of_getA_some u ud s.user_data hud]
      have hres : (receive_new_selector_and_update s u text fo).1 =
          (finish_update s u n fo).1 := by
        simp only [receive_new_selector_and_update, hcv, if_pos hskip]
      rw [hres, ← hrw]
      exact Inv.update_tail s u n ud t url0 sel0 r0 fo h hud hurl hsel hr0
    · have hres : (receive_new_selector_and_update s u text fo).1 =
          (finish_update (⟨setA u (setA n { t with selector := some text } ud)
            s.user_data, s.jobs, s.sched, s.db, s.conv⟩ : SysState) u n fo).1 := by
        simp only [receive_new_selector_and_update, hcv, if_neg hskip, hud, hun]
      rw [hres]
      exact Inv.update_tail s u n ud { t with selector := some text } url0 text
        r0 fo h hud hurl rfl hr0
  all_goals
    have hres : (receive_new_selector_and_update s u text fo).1 = s := by
      simp only [receive_new_selector_and_update, hcv]
    rw [hres]
    exact h

theorem reachable_inv (s : SysState) (hr : Reachable s) : Inv s := by
  induction hr with
  | init => exact Inv.initial
  | add_step s u hs ih => exact Inv.step_add s u ih
  | name_step s u text hs ih => exact Inv.step_name s u text ih
  | url_step s u text hs ih => exact Inv.step_url s u text ih
  | selector_step s u text fo hs ih => exact Inv.step_selector s u text fo ih
  | cancel_step s u hs ih => exact Inv.step_cancel s u ih
  | delete_entry_step s u hs ih => exact Inv.step_delete_entry s u ih
  | delete_step s u text hs ih => exact Inv.step_delete s u text ih
  | update_entry_step s u hs ih => exact Inv.step_update_entry s u ih
  | select_update_step s u text hs ih => exact Inv.step_select s u text ih
  | new_url_step s u text hs ih => exact Inv.step_new_url s u text ih
  | new_selector_step s u text fo hs ih => exact Inv.step_new_selector s u text fo ih
  | fire_step s u n fo sendOk hs hg ih => exact Inv.step_fire s u n fo sendOk ih hg

/-- The state right after a successful create of task t for user 1. -/
def c4_good : SysState :=
  (receive_selector
    (receive_url
      (receive_task_name (add_task initState 1).1 1 "t").1 1 "h").1
    1 "c" (FetchOutcome.ok "s0") true).1

theorem c4_good_reachable : Reachable c4_good :=
  Reachable.selector_step _ 1 "c" (FetchOutcome.ok "s0")
    (Reachable.url_step _ 1 "h"
      (Reachable.name_step _ 1 "t" (Reachable.add_step _ 1 Reachable.init)))

/-- Claim C4: amended.  The claimed store-iff-scheduled coupling fails in
both directions and only a registry-guarded implication survives: at every
reachable state (durable writes taken to commit), a task whose recurring
job is live in the scheduler and still recorded in the jobs registry has a
row in the durable store.  One converse failure is c4_counterexample: a
failed update leaves the row stored with the job removed and every
conversation idle.  The guard is needed because setup_monitoring_task arms
the job before the registry assignment that can raise KeyError, and such a
leaked, unregistered job even survives a later delete of its task - which
cancels registry-tracked jobs only - until its own next firing
self-disarms it. -/
theorem c4_amended (s : SysState) (u : Nat) (n : String) (hr : Reachable s)
    (hs : schedHas s u n = true) (hg : regHas s u n = true) :
    dbHas s u n = true :=
  (reachable_inv s hr).sr_db u n hs hg

theorem c4_amended_witness :
    schedHas c4_good 1 "t" = true ∧ regHas c4_good 1 "t" = true ∧
      dbHas c4_good 1 "t" = true :=
  ⟨by decide, by decide,
    c4_amended c4_good 1 "t" c4_good_reachable (by decide) (by decide)⟩

end Monitory
